import Mathlib

set_option maxHeartbeats 1000000

/-!  Shallow embedding of the react-lightyear partial server renderer core
     (`ReactPartialRenderer`): the frame-stack traversal engine, the context
     scope stacks (`pushProvider` / `popProvider` / `clearProviders`), the
     synchronous reader (`read`) and the asynchronous reader
     (`ReactDOMServerRendererAsync.readAsync` with its out-queue of literal
     fragments and futures).  Definitions are translated from
     `src/unnamed/part_000`; collaborator code that is not under `src/`
     (thread-id allocator, text escaping, DOM markup operations) is modelled
     from the spec and marked as such. -/

namespace Lightyear

/-- Context values stored in the shared context slots.  The engine never
    inspects them, so they are modelled as natural numbers. -/
abbrev Value := Nat

/-- The shared context-slot storage, `(context id, thread id) ↦ value`.
    In the source every `ReactContext` object carries a mutable array indexed
    by thread id (`context[threadID]`); the whole storage is modelled as one
    total function keyed by context id and thread id. -/
abbrev Store := Nat → Nat → Value

/-- Write `context[tid] = v` into the shared storage. -/
def storeSet (s : Store) (c tid : Nat) (v : Value) : Store :=
  fun c' t' => if c' = c ∧ t' = tid then v else s c' t'

theorem storeSet_get_same (s : Store) (c tid : Nat) (v : Value) :
    storeSet s c tid v c tid = v := by
  simp [storeSet]

theorem storeSet_overwrite (s : Store) (c tid : Nat) (v w : Value) :
    storeSet (storeSet s c tid v) c tid w = storeSet s c tid w := by
  funext c' t'
  by_cases h : c' = c ∧ t' = tid <;> simp [storeSet, h]

theorem storeSet_self (s : Store) (c tid : Nat) :
    storeSet s c tid (s c tid) = s := by
  funext c' t'
  by_cases h : c' = c ∧ t' = tid
  · simp [storeSet, h, h.1, h.2]
  · simp [storeSet, h]

/-- Modelled from the spec: the Session ID Allocator
    (`ReactThreadIDAllocator`, imported by the source but not under `src/`).
    `allocate()` hands out an id from the free pool, or a fresh one when the
    pool is empty; `release(id)` returns the id to the free pool for reuse. -/
structure Alloc where
  freePool : List Nat
  nextID : Nat
deriving Repr, DecidableEq

/-- Modelled from the spec: `allocate() -> id` of the Session ID Allocator. -/
def allocThreadID : Alloc → Nat × Alloc
  | ⟨[], n⟩ => (n, ⟨[], n + 1⟩)
  | ⟨i :: rest, n⟩ => (i, ⟨rest, n⟩)

/-- Modelled from the spec: `release(id)` of the Session ID Allocator; the id
    goes back to the free pool.  The number of times an id has been released
    (and not yet reallocated) is the number of its occurrences in the pool. -/
def freeThreadID (tid : Nat) (a : Alloc) : Alloc :=
  ⟨tid :: a.freePool, a.nextID⟩

/-- The fresh allocator at process start. -/
def allocInit : Alloc := ⟨[], 0⟩

/-- Modelled from the spec: the Encoder collaborator's
    `escapeText(string) -> string` (`escapeTextForBrowser`, not under
    `src/`).  The spec fixes no escaping rules, so the encoding is modelled
    as the identity; every claim below is about the structure and order of
    the output, which is independent of the escaping applied to each leaf. -/
def escapeTextForBrowser (s : String) : String := s

/-- Modelled from the spec: `createMarkupForRoot` of the external
    `DOMMarkupOperations` collaborator, a fixed root-marker attribute. -/
def createMarkupForRoot : String := "data-reactroot=\x22\x22"

/-- Modelled from the spec: the external `omittedCloseTags` table of the
    Encoder collaborator — host tags that self-close and take no footer. -/
def omittedCloseTags : List String :=
  ["area", "base", "br", "col", "embed", "hr", "img", "input", "keygen",
   "link", "meta", "param", "source", "track", "wbr"]

/-- Fatal errors surfaced by the readers (thrown `invariant` violations). -/
inductive RErr where
  /-- "A React component suspended while rendering, but no fallback UI was
      specified." — suspension with no handler. -/
  | noFallback
  /-- "ReactDOMServer did not find an internal fallback frame for Suspense."
      — internal bug guard on the suspended pop path. -/
  | internalFallbackMissing
deriving Repr, DecidableEq

/-- A node of the input tree, in the resolved forms the engine's `render`
    dispatches on.  Composite-component resolution (`resolve`, classes,
    hooks) is the external Resolver collaborator per the spec, so nodes are
    modelled post-resolution:
    * `text` / `num` — string/number leaves (lines 957-969);
    * `null` — `null`/`false` children (line 973);
    * `elem` — host element with a tag and an array of children
      (`renderDOM`); properties other than children are encoded by the
      external Encoder and are not carried;
    * `fragment` — fragment-like wrappers (`REACT_FRAGMENT_TYPE` and the
      other pass-through types of the same branch, lines 1016-1037);
    * `suspense` — `REACT_SUSPENSE_TYPE`, with `none` modelling an
      `undefined` fallback and `some fbs` the `toArray`-ed fallback
      (lines 1038-1091);
    * `provider` / `consumer` — new-context provider and consumer elements
      (lines 1147-1215);
    * `pendingLazy` — a `REACT_LAZY_TYPE` element whose status is `Pending`:
      rendering it throws its thenable (line 1286); `inner` is what the
      element renders to once that thenable has resolved;
    * `lazyResolved` — the same lazy element once `Resolved`: it expands to
      a frame holding the single resolved child (lines 1262-1282). -/
inductive RNode where
  | text (s : String)
  | num (n : Int)
  | null
  | elem (tag : String) (children : List RNode)
  | fragment (children : List RNode)
  | suspense (fallback : Option (List RNode)) (children : List RNode)
  | provider (ctx : Nat) (v : Value) (children : List RNode)
  | consumer (ctx : Nat) (f : Value → List RNode)
  | pendingLazy (inner : RNode)
  | lazyResolved (inner : RNode)

/-- What the pop branch of the readers dispatches on: the source stores the
    tag string for host frames (so `frame.type === 'select'` can be
    checked), the provider element for provider frames,
    `REACT_SUSPENSE_TYPE` for boundary frames and `null` otherwise. -/
inductive FType where
  | none
  | domTag (tag : String)
  | providerT (ctx : Nat)
  | suspenseT
deriving Repr, DecidableEq

/-- A traversal frame (source `Frame` record): the dispatch type, the
    children array, the cursor into it, the closing marker to emit on pop,
    and — for boundary frames — the pre-built fallback frame.
    `domNamespace` and the legacy `context` field feed only the external
    Encoder/Resolver collaborators and are not carried. -/
inductive Frame where
  | mk (ftype : FType) (children : List RNode) (childIndex : Nat)
    (footer : String) (fallbackFrame : Option Frame)

def Frame.ftype : Frame → FType
  | .mk t _ _ _ _ => t

def Frame.children : Frame → List RNode
  | .mk _ c _ _ _ => c

def Frame.childIndex : Frame → Nat
  | .mk _ _ i _ _ => i

def Frame.footer : Frame → String
  | .mk _ _ _ f _ => f

def Frame.fallbackFrame : Frame → Option Frame
  | .mk _ _ _ _ fb => fb

/-- Advance the cursor of a frame (source `frame.childIndex++`). -/
def Frame.bumpIndex : Frame → Frame
  | .mk t c i f fb => .mk t c (i + 1) f fb

/-- Per-renderer engine state shared by the synchronous and asynchronous
    readers (fields of `ReactDOMServerRenderer`).  The frame stack keeps its
    top at the head (the source uses an array whose top is the last slot).
    The two parallel context stacks `contextStack` / `contextValueStack`
    (live up to `contextIndex`) are merged into one list of
    `(context id, previous value)` pairs, head = top. -/
structure EngineState where
  threadID : Nat
  stack : List Frame
  exhausted : Bool
  currentSelectValue : Option Value
  previousWasTextNode : Bool
  makeStaticMarkup : Bool
  suspenseDepth : Nat
  ctxStack : List (Nat × Value)
  isChildRenderer : Bool

/-- `pushProvider` (lines 789-806): read the current value of the shared
    slot, remember `(context, previousValue)` on the scope stack, then
    overwrite the slot with the provider's value. -/
def pushProvider (tid : Nat) (c : Nat) (v : Value)
    (cs : List (Nat × Value)) (store : Store) :
    List (Nat × Value) × Store :=
  ((c, store c tid) :: cs, storeSet store c tid v)

/-- `popProvider` (lines 808-834): restore the shared slot of the top scope
    entry to its recorded previous value and pop the entry.  The source
    reads the top of its own stacks and ignores which provider is passed
    (the argument only feeds a DEV warning); an empty scope stack is never
    popped by the engine. -/
def popProvider (tid : Nat) (cs : List (Nat × Value)) (store : Store) :
    List (Nat × Value) × Store :=
  match cs with
  | [] => ([], store)
  | (c, prev) :: rest => (rest, storeSet store c tid prev)

/-- `clearProviders` (lines 836-843): restore every still-open scope entry,
    from the top of the scope stack down, into the shared storage. -/
def clearProviders (tid : Nat) (cs : List (Nat × Value)) (store : Store) :
    Store :=
  match cs with
  | [] => store
  | (c, prev) :: rest => clearProviders tid rest (storeSet store c tid prev)

/-- Result of rendering one child node: either markup to append to the
    current output, or a thrown thenable (the source signals suspension by
    throwing a promise; `inner` is the node's eventual resolved form). -/
inductive RenderOut where
  | markup (s : String)
  | suspendedOn (inner : RNode)

/-- `renderDOM` (lines 1352-1634), restricted to the traversal-relevant
    parts: open-tag markup (properties are encoded by the external
    Encoder and not carried; the root marker is appended for the root
    element of a non-static top-level render, line 1590), self-closing
    versus footered tags, the child frame push, and the
    `previousWasTextNode` reset.  Host-specific form-control normalization
    and the single-string-child inner-markup shortcut feed the external
    collaborators only and are not modelled. -/
def renderDOM (tag0 : String) (children : List RNode) (es : EngineState) :
    String × EngineState :=
  let tag := tag0.map Char.toLower
  let isRoot := es.stack.length = 1 ∧ ¬ es.isChildRenderer
  let opening := "<" ++ tag
  let opening :=
    if es.makeStaticMarkup then opening
    else if isRoot then opening ++ " " ++ createMarkupForRoot else opening
  if omittedCloseTags.contains tag then
    let frame : Frame := .mk (.domTag tag) children 0 "" none
    (opening ++ "/>",
      { es with stack := frame :: es.stack, previousWasTextNode := false })
  else
    let footer := "</" ++ tag ++ ">"
    let frame : Frame := .mk (.domTag tag) children 0 footer none
    (opening ++ ">",
      { es with stack := frame :: es.stack, previousWasTextNode := false })

/-- `render` (lines 952-1350): resolve one child into markup, a pushed
    frame, or a thrown thenable.  Shared verbatim by the synchronous reader
    and `ReactDOMServerRendererAsync` (which inherits it). -/
def render (child : RNode) (es : EngineState) (store : Store) :
    RenderOut × EngineState × Store :=
  match child with
  | .text s =>
      if s = "" then (.markup "", es, store)
      else if es.makeStaticMarkup then
        (.markup (escapeTextForBrowser s), es, store)
      else if es.previousWasTextNode then
        (.markup ("<!-- -->" ++ escapeTextForBrowser s), es, store)
      else
        (.markup (escapeTextForBrowser s),
          { es with previousWasTextNode := true }, store)
  | .num n =>
      -- numbers are coerced to their decimal string (`'' + child`) and then
      -- take the text path; the string of a number is never empty
      let s := toString n
      if es.makeStaticMarkup then
        (.markup (escapeTextForBrowser s), es, store)
      else if es.previousWasTextNode then
        (.markup ("<!-- -->" ++ escapeTextForBrowser s), es, store)
      else
        (.markup (escapeTextForBrowser s),
          { es with previousWasTextNode := true }, store)
  | .null => (.markup "", es, store)
  | .elem tag children =>
      let (out, es') := renderDOM tag children es
      (.markup out, es', store)
  | .fragment children =>
      let frame : Frame := .mk .none children 0 "" none
      (.markup "", { es with stack := frame :: es.stack }, store)
  | .suspense none children =>
      -- no fallback: behaves as a plain fragment (lines 1041-1059)
      let frame : Frame := .mk .none children 0 "" none
      (.markup "", { es with stack := frame :: es.stack }, store)
  | .suspense (some fbs) children =>
      let fallbackFrame : Frame := .mk .none fbs 0 "<!--/$-->" none
      let frame : Frame :=
        .mk .suspenseT children 0 "<!--/$-->" (some fallbackFrame)
      (.markup "<!--$-->",
        { es with stack := frame :: es.stack,
                  suspenseDepth := es.suspenseDepth + 1 }, store)
  | .provider c v children =>
      let (cs', store') := pushProvider es.threadID c v es.ctxStack store
      let frame : Frame := .mk (.providerT c) children 0 "" none
      (.markup "",
        { es with stack := frame :: es.stack, ctxStack := cs' }, store')
  | .consumer c f =>
      let v := store c es.threadID
      let frame : Frame := .mk .none (f v) 0 "" none
      (.markup "", { es with stack := frame :: es.stack }, store)
  | .pendingLazy inner =>
      (.suspendedOn inner, es, store)
  | .lazyResolved inner =>
      let frame : Frame := .mk .none [inner] 0 "" none
      (.markup "", { es with stack := frame :: es.stack }, store)

/-! ### The synchronous reader (`read`, lines 845-950) -/

/-- Success or fatal-error outcome of a reader run. -/
inductive Outcome (α : Type) where
  | ok (a : α)
  | fail (e : RErr)
deriving Repr, DecidableEq

def Outcome.map {α β : Type} (f : α → β) : Outcome α → Outcome β
  | .ok a => .ok (f a)
  | .fail e => .fail e

/-- `out[i] += s` on the per-depth output buffers (a JS array indexed by
    `suspenseDepth`; the engine keeps `out.length = suspenseDepth + 1`). -/
def outAppend (out : List String) (i : Nat) (s : String) : List String :=
  out.set i (out.getD i "" ++ s)

/-- `if (out.length <= suspenseDepth) out.push('')` (lines 940-942). -/
def outEnsure (out : List String) (depth : Nat) : List String :=
  if out.length ≤ depth then out ++ [""] else out

/-- The byte-budget test of the pull loops; `none` models `Infinity`. -/
def budgetLeft (bytes : Option Nat) (cur : String) : Bool :=
  match bytes with
  | none => true
  | some b => cur.length < b

/-- Full per-call state of the synchronous `read`: the engine state, the
    shared storage, the allocator, the per-depth output buffers (`out`,
    local to each call) and the `suspended` flag. -/
structure SyncState where
  es : EngineState
  store : Store
  alloc : Alloc
  out : List String
  suspended : Bool

/-- One step of `read`: the loop's frame-pop branch (lines 866-906). -/
def syncPopStep (frame : Frame) (rest : List Frame) (ss : SyncState) :
    Outcome SyncState :=
  let footer := frame.footer
  let prev := if footer ≠ "" then false else ss.es.previousWasTextNode
  let es := { ss.es with stack := rest, previousWasTextNode := prev }
  match frame.ftype with
  | .domTag tag =>
      let es :=
        if tag = "select" then { es with currentSelectValue := none } else es
      .ok { ss with es := es,
                    out := outAppend ss.out es.suspenseDepth footer }
  | .providerT _ =>
      let (cs', store') := popProvider es.threadID es.ctxStack ss.store
      .ok { ss with es := { es with ctxStack := cs' }, store := store',
                    out := outAppend ss.out es.suspenseDepth footer }
  | .suspenseT =>
      let depth := es.suspenseDepth - 1
      let es := { es with suspenseDepth := depth }
      let buffered := (ss.out.getLast?).getD ""
      let out := ss.out.dropLast
      if ss.suspended then
        match frame.fallbackFrame with
        | none => .fail .internalFallbackMissing
        | some fb =>
            -- switch to the fallback: discard the buffered output, push the
            -- pre-built fallback frame, emit the suspended sentinel and skip
            -- this boundary's footer (lines 885-897)
            .ok { ss with
                  es := { es with stack := fb :: rest },
                  out := outAppend out depth "<!--$!-->",
                  suspended := false }
      else
        .ok { ss with es := es,
                      out := outAppend (outAppend out depth buffered)
                        depth footer }
  | .none =>
      .ok { ss with es := es,
                    out := outAppend ss.out es.suspenseDepth footer }

/-- What one loop iteration of a reader can do. -/
inductive StepRes where
  | cont (s : SyncState)
  | done (s : SyncState)
  | fail (e : RErr)

/-- One iteration of the `while` loop of `read` (lines 859-944): check the
    budget, handle stack exhaustion (which frees the thread id), pop a
    finished (or suspended-into) frame, or take the next child and render
    it, treating a thrown thenable as suspension — fatal unless an
    enclosing boundary is open (`suspenseDepth > 0`, lines 917-931). -/
def syncStep (bytes : Option Nat) (ss : SyncState) : StepRes :=
  if ¬ budgetLeft bytes (ss.out.getD 0 "") then .done ss
  else
    match ss.es.stack with
    | [] =>
        .done { ss with
                es := { ss.es with exhausted := true },
                alloc := freeThreadID ss.es.threadID ss.alloc }
    | frame :: rest =>
        if ss.suspended ∨ frame.childIndex ≥ frame.children.length then
          match syncPopStep frame rest ss with
          | .ok ss' => .cont ss'
          | .fail e => .fail e
        else
          match render (frame.children.getD frame.childIndex .null)
              { ss.es with stack := frame.bumpIndex :: rest } ss.store with
          | (.markup s, es', store') =>
              .cont { ss with
                      es := es', store := store',
                      out := outAppend (outEnsure ss.out es'.suspenseDepth)
                        es'.suspenseDepth s }
          | (.suspendedOn _, es', store') =>
              if es'.suspenseDepth > 0 then
                .cont { ss with
                        es := es', store := store',
                        out := outAppend (outEnsure ss.out es'.suspenseDepth)
                          es'.suspenseDepth "",
                        suspended := true }
              else .fail .noFallback

/-- The fueled `while` loop of `read`; `none` means the fuel ran out. -/
def syncLoop (fuel : Nat) (bytes : Option Nat) (ss : SyncState) :
    Option (Outcome SyncState) :=
  match fuel with
  | 0 => none
  | fuel + 1 =>
      match syncStep bytes ss with
      | .done s => some (.ok s)
      | .fail e => some (.fail e)
      | .cont s => syncLoop fuel bytes s

/-- `read(bytes)` (lines 845-950): `null` when already exhausted, otherwise
    run the loop on a fresh `out = ['']` buffer and return `out[0]`. -/
def readSync (fuel : Nat) (bytes : Option Nat)
    (es : EngineState) (store : Store) (alloc : Alloc) :
    Option (Outcome (Option String × SyncState)) :=
  if es.exhausted then
    some (.ok (none, ⟨es, store, alloc, [""], false⟩))
  else
    (syncLoop fuel bytes ⟨es, store, alloc, [""], false⟩).map
      (Outcome.map fun s => (some (s.out.getD 0 ""), s))

/-- `ReactDOMServerRenderer.destroy` (lines 771-777): when not yet
    exhausted, mark exhausted, drain the open scopes and release the
    session id. -/
def destroySync (es : EngineState) (store : Store) (alloc : Alloc) :
    EngineState × Store × Alloc :=
  if es.exhausted then (es, store, alloc)
  else
    ({ es with exhausted := true },
     clearProviders es.threadID es.ctxStack store,
     freeThreadID es.threadID alloc)

/-- The constructor of `ReactDOMServerRenderer` (lines 738-769): allocate a
    thread id and start from a single top frame holding the flattened
    top-level children. -/
def mkRenderer (children : List RNode) (static : Bool)
    (store : Store) (alloc : Alloc) : EngineState × Store × Alloc :=
  let (tid, alloc') := allocThreadID alloc
  ({ threadID := tid,
     stack := [.mk .none children 0 "" none],
     exhausted := false,
     currentSelectValue := none,
     previousWasTextNode := false,
     makeStaticMarkup := static,
     suspenseDepth := 0,
     ctxStack := [],
     isChildRenderer := false }, store, alloc')

/-- The total output of one synchronous session: construct a renderer on a
    fresh allocator and pull once with an infinite budget (further pulls
    return `null`, so this single pull is the whole concatenation). -/
def syncTotal (fuel : Nat) (children : List RNode) (static : Bool)
    (store : Store) : Option (Outcome String) :=
  let (es, store, alloc) := mkRenderer children static store allocInit
  (readSync fuel none es store alloc).map
    (Outcome.map fun r => (r.1.getD ""))

/-! ### The asynchronous reader (`ReactDOMServerRendererAsync`,
    lines 1639-1928) -/

/-- The cloned render context captured at suspension time
    (`getClonedRenderContext`, lines 1734-1757): the thread id, select
    value and text-node flag, the cloned scope stack (the merged
    `contextStack` / `contextValueStack` pairs) and, per live entry, the
    shared slot's current value (`contextValues`), so the child renderer
    can re-establish the ambient values in a later tick. -/
structure RenderContext where
  threadID : Nat
  currentSelectValue : Option Value
  previousWasTextNode : Bool
  ctxStack : List (Nat × Value)
  ctxValues : List Value

def getClonedRenderContext (es : EngineState) (store : Store) :
    RenderContext :=
  { threadID := es.threadID,
    currentSelectValue := es.currentSelectValue,
    previousWasTextNode := es.previousWasTextNode,
    ctxStack := es.ctxStack,
    ctxValues := es.ctxStack.map fun p => store p.1 es.threadID }

/-- An entry of a per-depth out-queue buffer (`outQueue[depth]`): a literal
    string fragment, or one of the two kinds of promise the reader stores:
    the future produced for a suspended child (`renderEventually`,
    lines 1774-1790 — it spawns a fresh child renderer for the resolved
    node, modelled by keeping the eventual node and the captured render
    context) and the rolled-up future of a finished boundary
    (`resolvePromisesWithFooter(...).then(join)`, lines 1852-1871). -/
inductive QItem where
  | str (s : String)
  | deferredNode (inner : RNode) (static : Bool) (ctx : RenderContext)
  | boundary (items : List QItem) (footer : String)

/-- `pushToOutQueue` (lines 1797-1808): strings merge into a trailing
    string entry, promises (and strings following a promise) append. -/
def pushItem (buf : List QItem) (item : QItem) : List QItem :=
  match item with
  | .str s =>
      match buf.getLast? with
      | some (.str t) => buf.dropLast ++ [.str (t ++ s)]
      | _ => buf ++ [item]
  | _ => buf ++ [item]

def pushToOutQueue (queue : List (List QItem)) (depth : Nat)
    (item : QItem) : List (List QItem) :=
  queue.set depth (pushItem (queue.getD depth []) item)

/-- `if (outQueue.length <= suspenseDepth) outQueue.push([''])`
    (lines 1901-1903). -/
def queueEnsure (queue : List (List QItem)) (depth : Nat) :
    List (List QItem) :=
  if queue.length ≤ depth then queue ++ [[.str ""]] else queue

/-- The first buffered string of the top-level buffer, `outQueue[0][0]`. -/
def q00 (queue : List (List QItem)) : String :=
  match queue.getD 0 [] with
  | .str s :: _ => s
  | _ => ""

/-- Full state of an asynchronous renderer together with the shared
    storage and the allocator. -/
structure AsyncState where
  es : EngineState
  store : Store
  alloc : Alloc
  outQueue : List (List QItem)

/-- One step of `readAsync`: the frame-pop branch (lines 1834-1880).
    A finished boundary's buffer is popped and rolled up into a single
    future joining every fragment in insertion order with the footer
    appended last; non-boundary frames just flush their footer. -/
def asyncPopStep (frame : Frame) (rest : List Frame) (as : AsyncState) :
    AsyncState :=
  let footer := frame.footer
  let prev := if footer ≠ "" then false else as.es.previousWasTextNode
  let es := { as.es with stack := rest, previousWasTextNode := prev }
  match frame.ftype with
  | .domTag tag =>
      let es :=
        if tag = "select" then { es with currentSelectValue := none } else es
      { as with es := es,
                outQueue := pushToOutQueue as.outQueue es.suspenseDepth
                  (.str footer) }
  | .providerT _ =>
      let (cs', store') := popProvider es.threadID es.ctxStack as.store
      { as with es := { es with ctxStack := cs' }, store := store',
                outQueue := pushToOutQueue as.outQueue es.suspenseDepth
                  (.str footer) }
  | .suspenseT =>
      let depth := es.suspenseDepth - 1
      let es := { es with suspenseDepth := depth }
      let items := (as.outQueue.getLast?).getD []
      let queue := as.outQueue.dropLast
      -- every buffered entry (strings become already-resolved promises)
      -- is collected in insertion order and rolled up with the footer
      { as with es := es,
                outQueue := pushToOutQueue queue depth
                  (.boundary items footer) }
  | .none =>
      { as with es := es,
                outQueue := pushToOutQueue as.outQueue es.suspenseDepth
                  (.str footer) }

/-- What one iteration of the `readAsync` loop can do. -/
inductive AStepRes where
  | cont (s : AsyncState)
  | done (s : AsyncState)
  | fail (e : RErr)

/-- One iteration of the `while` loop of `readAsync` (lines 1825-1906).
    A child is rendered through `renderEventually` (lines 1759-1795): on a
    thrown thenable, suspension is allowed only under an open boundary or
    in a child renderer (`suspenseDepth > 0 || isChildRenderer`,
    line 1894); the eventual value is captured as a future carrying the
    cloned render context and pushed into the current depth's buffer, and
    the loop continues with the next sibling. -/
def asyncStep (bytes : Option Nat) (as : AsyncState) : AStepRes :=
  if ¬ (¬ as.es.exhausted ∧ budgetLeft bytes (q00 as.outQueue)) then
    .done as
  else
    match as.es.stack with
    | [] =>
        .done { as with
                es := { as.es with exhausted := true },
                alloc := freeThreadID as.es.threadID as.alloc }
    | frame :: rest =>
        if frame.childIndex ≥ frame.children.length then
          .cont (asyncPopStep frame rest as)
        else
          let child := frame.children.getD frame.childIndex .null
          let as := { as with es :=
            { as.es with stack := frame.bumpIndex :: rest } }
          match render child as.es as.store with
          | (.markup s, es', store') =>
              let queue := queueEnsure as.outQueue es'.suspenseDepth
              .cont { as with es := es', store := store',
                              outQueue := pushToOutQueue queue
                                es'.suspenseDepth (.str s) }
          | (.suspendedOn inner, es', store') =>
              if es'.suspenseDepth > 0 ∨ es'.isChildRenderer then
                let ctx := getClonedRenderContext es' store'
                let queue := queueEnsure as.outQueue es'.suspenseDepth
                .cont { as with es := es', store := store',
                                outQueue := pushToOutQueue queue
                                  es'.suspenseDepth
                                  (.deferredNode inner
                                    es'.makeStaticMarkup ctx) }
              else .fail .noFallback

/-- The fueled `while` loop of `readAsync`. -/
def asyncLoop (fuel : Nat) (bytes : Option Nat) (as : AsyncState) :
    Option (Outcome AsyncState) :=
  match fuel with
  | 0 => none
  | fuel + 1 =>
      match asyncStep bytes as with
      | .done s => some (.ok s)
      | .fail e => some (.fail e)
      | .cont s => asyncLoop fuel bytes s

/-- `ReactDOMServerRendererAsync.destroy` (lines 1916-1927): like the base
    destroy, but a child renderer must not release the thread id it shares
    with its parent. -/
def destroyAsync (as : AsyncState) : AsyncState :=
  if as.es.exhausted then as
  else
    { as with
      es := { as.es with exhausted := true },
      store := clearProviders as.es.threadID as.es.ctxStack as.store,
      alloc := if as.es.isChildRenderer then as.alloc
               else freeThreadID as.es.threadID as.alloc }

/-- The constructor of `ReactDOMServerRendererAsync` (lines 1701-1732):
    the base constructor (which allocates a thread id), a fresh
    `outQueue = [['']]`, and — when a cloned render context is supplied —
    the child-renderer setup: adopt the parent's thread id (the id just
    allocated by the base constructor is simply abandoned), restore the
    captured per-renderer fields, and write each captured context value
    back into its shared slot (lines 1707-1730). -/
def mkAsyncRenderer (children : List RNode) (static : Bool)
    (renderContext : Option RenderContext)
    (store : Store) (alloc : Alloc) : AsyncState :=
  let (es, store, alloc) := mkRenderer children static store alloc
  match renderContext with
  | none => { es := es, store := store, alloc := alloc,
              outQueue := [[.str ""]] }
  | some rc =>
      let es := { es with
        isChildRenderer := true,
        threadID := rc.threadID,
        currentSelectValue := rc.currentSelectValue,
        previousWasTextNode := rc.previousWasTextNode,
        ctxStack := rc.ctxStack }
      let store := (rc.ctxStack.zip rc.ctxValues).foldl
        (fun st p => storeSet st p.1.1 rc.threadID p.2) store
      { es := es, store := store, alloc := alloc,
        outQueue := [[.str ""]] }

/-- Await one queue entry (resolving a whole buffer is `.inr`): strings are
    already resolved; a boundary future awaits its entries in insertion
    order and appends the footer (`resolvePromisesWithFooter` then `join`,
    lines 1864-1869); a suspension future waits for the external value,
    spawns a fresh child renderer from the captured render context on the
    now-resolved node, drains it with `readAsync(Infinity)` and destroys it
    (lines 1774-1790).  Fuel bounds the recursion; `none` means it ran
    out. -/
def forceQ (fuel : Nat) (x : QItem ⊕ List QItem) (store : Store)
    (alloc : Alloc) : Option (String × Store × Alloc) :=
  match fuel with
  | 0 => none
  | fuel + 1 =>
      match x with
      | .inl (.str s) => some (s, store, alloc)
      | .inl (.boundary items footer) =>
          match forceQ fuel (.inr items) store alloc with
          | none => none
          | some (s, store, alloc) => some (s ++ footer, store, alloc)
      | .inl (.deferredNode inner static rc) =>
          -- the child renderer is spawned on the now-resolved lazy node
          -- with the parent's static-markup flag (captured by the closure)
          let child := mkAsyncRenderer [.lazyResolved inner]
            static (some rc) store alloc
          match asyncLoop fuel none child with
          | none => none
          | some (.fail _) => none
          | some (.ok child') =>
              match forceQ fuel (.inr (child'.outQueue.getD 0 []))
                  child'.store child'.alloc with
              | none => none
              | some (s, store, alloc) =>
                  let final := destroyAsync
                    { child' with store := store, alloc := alloc }
                  some (s, final.store, final.alloc)
      | .inr [] => some ("", store, alloc)
      | .inr (item :: items) =>
          match forceQ fuel (.inl item) store alloc with
          | none => none
          | some (s, store, alloc) =>
              match forceQ fuel (.inr items) store alloc with
              | none => none
              | some (t, store, alloc) => some (s ++ t, store, alloc)

/-- `flattenAndResolveQueue` (lines 1644-1671): flatten `outQueue[0]` from
    the front, merging resolved strings into `outQueue[0][0]` and awaiting
    each promise in turn; with a finite byte budget a non-empty prefix is
    returned as soon as a promise would have to be awaited; the flattened
    prefix is returned (and cleared from the buffer). -/
def flattenGo (fuel : Nat) (bytes : Option Nat) (acc : String)
    (rest : List QItem) (store : Store) (alloc : Alloc) :
    Option (String × List QItem × Store × Alloc) :=
  match fuel with
  | 0 => none
  | fuel + 1 =>
      if budgetLeft bytes acc then
        match rest with
        | [] => some (acc, [], store, alloc)
        | item :: rest' =>
            match item with
            | .str t => flattenGo fuel bytes (acc ++ t) rest' store alloc
            | _ =>
                if bytes ≠ none ∧ acc ≠ "" then
                  some (acc, item :: rest', store, alloc)
                else
                  match forceQ fuel (.inl item) store alloc with
                  | none => none
                  | some (t, store, alloc) =>
                      flattenGo fuel bytes (acc ++ t) rest' store alloc
      else some (acc, rest, store, alloc)

/-- `readAsync(bytes)` (lines 1810-1914) for one pull: resolve `null` when
    the renderer is exhausted with an empty top-level buffer, otherwise run
    the loop and flatten the top-level buffer. -/
def isTrivialQueue (queue : List (List QItem)) : Bool :=
  match queue.getD 0 [] with
  | [.str s] => s = ""
  | _ => false

def readAsyncFull (fuel : Nat) (bytes : Option Nat) (as : AsyncState) :
    Option (Outcome (Option String × AsyncState)) :=
  if as.es.exhausted ∧ isTrivialQueue as.outQueue then
    some (.ok (none, as))
  else
    match asyncLoop fuel bytes as with
    | none => none
    | some (.fail e) => some (.fail e)
    | some (.ok as') =>
        let (s0, rest0) :=
          match as'.outQueue.getD 0 [] with
          | .str s :: rest => (s, rest)
          | rest => ("", rest)
        match flattenGo fuel bytes s0 rest0 as'.store as'.alloc with
        | none => none
        | some (t, remaining, store, alloc) =>
            some (.ok (some t,
              { as' with store := store, alloc := alloc,
                         outQueue :=
                           as'.outQueue.set 0 (.str "" :: remaining) }))

/-- The total output of one asynchronous top-level session: construct the
    renderer on a fresh allocator and pull once with an infinite budget. -/
def asyncTotal (fuel : Nat) (children : List RNode) (static : Bool)
    (store : Store) : Option (Outcome String) :=
  let as := mkAsyncRenderer children static none store allocInit
  (readAsyncFull fuel none as).map (Outcome.map fun r => r.1.getD "")

/-- The allocator left after a full asynchronous session: one infinite
    pull followed by `destroy()` on the renderer. -/
def asyncSessionAlloc (fuel : Nat) (children : List RNode) (static : Bool)
    (store : Store) : Option Alloc :=
  let as := mkAsyncRenderer children static none store allocInit
  match readAsyncFull fuel none as with
  | some (.ok (_, as')) => some (destroyAsync as').alloc
  | _ => none

/-! ### Provider enter/exit event sequences

    The engine calls `pushProvider` when a provider element is rendered
    (the `provider` case of `render`) and `popProvider` when that
    provider's frame is popped (`syncPopStep` / `asyncPopStep`); frames pop
    in LIFO order, so the events of a session form a well-nested
    sequence.  `clearProviders` runs on `destroy`. -/

/-- One provider scope event of a session. -/
inductive ScopeOp where
  | enter (c : Nat) (v : Value)
  | exit
deriving Repr, DecidableEq

/-- Apply one scope event to the scope stack and the shared storage. -/
def applyScopeOp (tid : Nat) (s : List (Nat × Value) × Store) :
    ScopeOp → List (Nat × Value) × Store
  | .enter c v => pushProvider tid c v s.1 s.2
  | .exit => popProvider tid s.1 s.2

/-- Apply a sequence of scope events in order. -/
def applyScopeOps (tid : Nat) (ops : List ScopeOp)
    (s : List (Nat × Value) × Store) : List (Nat × Value) × Store :=
  match ops with
  | [] => s
  | op :: rest => applyScopeOps tid rest (applyScopeOp tid s op)

/-- The event sequences the engine can produce from `d` already-open
    scopes never pop an empty scope stack. -/
def depthOk : List ScopeOp → Nat → Bool
  | [], _ => true
  | .enter _ _ :: rest, d => depthOk rest (d + 1)
  | .exit :: _, 0 => false
  | .exit :: rest, d + 1 => depthOk rest d

/-- Well-nested event sequences: every enter is closed by its matching
    exit, scopes nest and never interleave. -/
inductive Balanced : List ScopeOp → Prop
  | nil : Balanced []
  | wrap (c : Nat) (v : Value) {mid rest : List ScopeOp} :
      Balanced mid → Balanced rest →
      Balanced (.enter c v :: mid ++ .exit :: rest)

theorem applyScopeOps_append (tid : Nat) (a b : List ScopeOp)
    (s : List (Nat × Value) × Store) :
    applyScopeOps tid (a ++ b) s = applyScopeOps tid b (applyScopeOps tid a s) := by
  induction a generalizing s with
  | nil => rfl
  | cons op rest ih => simp [applyScopeOps, ih]

/-- A balanced event block leaves both the scope stack and the shared
    storage exactly as it found them: each pushed entry is popped exactly
    once, by its matching exit, restoring the recorded previous value to
    the slot it overwrote. -/
theorem applyScopeOps_balanced (tid : Nat) {ops : List ScopeOp}
    (h : Balanced ops) :
    ∀ cs store, applyScopeOps tid ops (cs, store) = (cs, store) := by
  induction h with
  | nil => intro cs store; rfl
  | @wrap c v mid rest hmid hrest ihmid ihrest =>
      intro cs store
      have h1 : applyScopeOps tid
            (ScopeOp.enter c v :: mid ++ ScopeOp.exit :: rest) (cs, store) =
          applyScopeOps tid (mid ++ ScopeOp.exit :: rest)
            ((c, store c tid) :: cs, storeSet store c tid v) := rfl
      rw [h1, applyScopeOps_append, ihmid]
      have h2 : applyScopeOps tid (ScopeOp.exit :: rest)
            ((c, store c tid) :: cs, storeSet store c tid v) =
          applyScopeOps tid rest
            (cs, storeSet (storeSet store c tid v) c tid (store c tid)) := rfl
      rw [h2, storeSet_overwrite, storeSet_self]
      exact ihrest cs store

/-- Along any engine-producible event sequence, draining the still-open
    scopes from top to bottom recovers whatever draining would have
    recovered before the sequence ran. -/
theorem clearProviders_applyScopeOps (tid : Nat) (ops : List ScopeOp) :
    ∀ cs store, depthOk ops cs.length = true →
    clearProviders tid (applyScopeOps tid ops (cs, store)).1
        (applyScopeOps tid ops (cs, store)).2 =
      clearProviders tid cs store := by
  induction ops with
  | nil => intro cs store _; rfl
  | cons op rest ih =>
      intro cs store h
      match op with
      | .enter c v =>
          have h' : depthOk rest ((c, store c tid) :: cs).length = true := by
            simpa [depthOk] using h
          have := ih ((c, store c tid) :: cs) (storeSet store c tid v) h'
          simp only [applyScopeOps, applyScopeOp, pushProvider] at *
          rw [this]
          show clearProviders tid cs
            (storeSet (storeSet store c tid v) c tid (store c tid)) = _
          rw [storeSet_overwrite, storeSet_self]
      | .exit =>
          match cs with
          | [] => simp [depthOk] at h
          | (c, p) :: cs' =>
              have h' : depthOk rest cs'.length = true := by
                simpa [depthOk] using h
              have := ih cs' (storeSet store c tid p) h'
              simp only [applyScopeOps, applyScopeOp, popProvider] at *
              rw [this]
              rfl

/-! ### Output-buffer bookkeeping lemmas -/

theorem outAppend_length (out : List String) (i : Nat) (s : String) :
    (outAppend out i s).length = out.length := by
  simp [outAppend]

theorem getD_append_len {α : Type} (pre l : List α) (d : α) :
    (pre ++ l).getD pre.length d = l.getD 0 d := by
  rw [List.getD_eq_getElem?_getD, List.getD_eq_getElem?_getD,
    List.getElem?_append_right (Nat.le_refl pre.length), Nat.sub_self]

theorem outAppend_getD (out : List String) (i : Nat) (s : String)
    (h : i < out.length) :
    (outAppend out i s).getD i "" = out.getD i "" ++ s := by
  unfold outAppend
  rw [List.getD_eq_getElem?_getD, List.getElem?_set_self (by simpa using h)]
  simp [List.getD_eq_getElem?_getD]

theorem outAppend_empty (out : List String) (i : Nat) (h : i < out.length) :
    outAppend out i "" = out := by
  unfold outAppend
  apply List.ext_getElem?
  intro n
  by_cases hn : i = n
  · subst hn
    rw [List.getElem?_set_self h]
    rw [List.getD_eq_getElem?_getD, List.getElem?_eq_getElem h]
    simp [String.append_empty]
  · rw [List.getElem?_set_ne hn]

theorem outAppend_outAppend (out : List String) (i : Nat) (a b : String)
    (h : i < out.length) :
    outAppend (outAppend out i a) i b = outAppend out i (a ++ b) := by
  have hg := outAppend_getD out i a h
  unfold outAppend at hg ⊢
  rw [hg, List.set_set, String.append_assoc]

theorem outEnsure_of_lt (out : List String) (i : Nat) (h : i < out.length) :
    outEnsure out i = out := by
  unfold outEnsure
  rw [if_neg (by omega)]

/-! ### The per-child effect of text leaves in the synchronous loop -/

/-- The encoding and `previousWasTextNode` update of one text leaf
    (the text branch of `render`, lines 957-969). -/
def renderTextStep (static prev : Bool) (s : String) : String × Bool :=
  if s = "" then ("", prev)
  else if static then (escapeTextForBrowser s, prev)
  else if prev then ("<!-- -->" ++ escapeTextForBrowser s, prev)
  else (escapeTextForBrowser s, true)

/-- The encoding of a run of consecutive text leaves, threading the
    `previousWasTextNode` flag. -/
def encodeTexts (static prev : Bool) : List String → String × Bool
  | [] => ("", prev)
  | s :: rest =>
      let c := renderTextStep static prev s
      let t := encodeTexts static c.2 rest
      (c.1 ++ t.1, t.2)

theorem syncStep_text (ss : SyncState) (ft : FType) (cs : List RNode)
    (i : Nat) (foot : String) (fb : Option Frame) (rest : List Frame)
    (s : String)
    (hstack : ss.es.stack = Frame.mk ft cs i foot fb :: rest)
    (hsusp : ss.suspended = false)
    (hchild : cs.getD i .null = .text s)
    (hi : i < cs.length)
    (hd : ss.es.suspenseDepth < ss.out.length) :
    syncStep none ss = .cont { ss with
      es := { ss.es with
        stack := Frame.mk ft cs (i + 1) foot fb :: rest,
        previousWasTextNode :=
          (renderTextStep ss.es.makeStaticMarkup
            ss.es.previousWasTextNode s).2 },
      out := outAppend ss.out ss.es.suspenseDepth
        (renderTextStep ss.es.makeStaticMarkup
          ss.es.previousWasTextNode s).1 } := by
  simp only [syncStep, budgetLeft, hstack, hsusp, Frame.childIndex,
    Frame.children, Frame.bumpIndex, hchild, render, renderTextStep,
    outEnsure_of_lt _ _ hd]
  rw [if_neg (by simp), if_neg (by simp; omega)]
  by_cases hs : s = "" <;> by_cases hstat : ss.es.makeStaticMarkup <;>
    by_cases hprev : ss.es.previousWasTextNode <;>
    simp_all [outEnsure_of_lt _ _ hd, outAppend_empty _ _ hd]

theorem syncLoop_cont {bytes : Option Nat} {ss s' : SyncState}
    (h : syncStep bytes ss = .cont s') (n : Nat) :
    syncLoop (n + 1) bytes ss = syncLoop n bytes s' := by
  simp [syncLoop, h]

theorem syncLoop_done {bytes : Option Nat} {ss s' : SyncState}
    (h : syncStep bytes ss = .done s') (n : Nat) :
    syncLoop (n + 1) bytes ss = some (.ok s') := by
  simp [syncLoop, h]

/-- Running the synchronous loop over a run of consecutive text-leaf
    children consumes them one per iteration, appending their joint
    encoding to the current depth's buffer and threading the
    `previousWasTextNode` flag. -/
theorem syncLoop_texts (ts : List String) :
    ∀ (f : Nat) (ss : SyncState) (ft : FType) (pre more : List RNode)
      (foot : String) (fb : Option Frame) (rest : List Frame),
    ss.es.stack =
      Frame.mk ft (pre ++ ts.map .text ++ more) pre.length foot fb
        :: rest →
    ss.suspended = false →
    ss.es.suspenseDepth < ss.out.length →
    syncLoop (ts.length + f) none ss =
      syncLoop f none { ss with
        es := { ss.es with
          stack := Frame.mk ft (pre ++ ts.map .text ++ more)
            (pre.length + ts.length) foot fb :: rest,
          previousWasTextNode :=
            (encodeTexts ss.es.makeStaticMarkup
              ss.es.previousWasTextNode ts).2 },
        out := outAppend ss.out ss.es.suspenseDepth
          (encodeTexts ss.es.makeStaticMarkup
            ss.es.previousWasTextNode ts).1 } := by
  induction ts with
  | nil =>
      intro f ss ft pre more foot fb rest hstack hsusp hd
      simp only [List.map_nil] at hstack
      simp only [List.length_nil, Nat.zero_add, Nat.add_zero, List.map_nil,
        encodeTexts, outAppend_empty _ _ hd]
      apply congrArg (syncLoop f none)
      rw [← hstack]
  | cons s ts ih =>
      intro f ss ft pre more foot fb rest hstack hsusp hd
      have hchild : (pre ++ (s :: ts).map RNode.text ++ more).getD
          pre.length .null = .text s := by
        rw [List.append_assoc, getD_append_len]
        rfl
      have hi : pre.length <
          (pre ++ (s :: ts).map RNode.text ++ more).length := by
        simp
      have hstep := syncStep_text ss ft _ pre.length foot fb rest s
        hstack hsusp hchild hi hd
      have hlen : (s :: ts).length + f = (ts.length + f) + 1 := by
        simp [List.length_cons]
        omega
      rw [hlen, syncLoop_cont hstep]
      have happ : pre ++ (s :: ts).map RNode.text ++ more =
          (pre ++ [RNode.text s]) ++ ts.map RNode.text ++ more := by
        simp [List.map_cons]
      refine (ih f _ ft (pre ++ [RNode.text s]) more foot fb rest ?_ ?_
        ?_).trans ?_
      · dsimp only
        rw [happ]
        simp
      · exact hsusp
      · simpa [outAppend_length] using hd
      · apply congrArg (syncLoop f none)
        dsimp only
        have e1 : (pre ++ [RNode.text s]).length + ts.length =
            pre.length + (s :: ts).length := by
          simp [List.length_append, List.length_cons]
          omega
        rw [outAppend_outAppend _ _ _ _ hd, e1, happ]
        simp only [encodeTexts]

/-- Rendering a boundary node with an explicit fallback: push the frame
    with the pre-built fallback frame, bump the boundary depth, emit the
    opening sentinel into the new depth's buffer. -/
theorem syncStep_suspense (ss : SyncState) (ft : FType) (cs : List RNode)
    (i : Nat) (foot : String) (fb : Option Frame) (rest : List Frame)
    (fbs kids : List RNode)
    (hstack : ss.es.stack = Frame.mk ft cs i foot fb :: rest)
    (hsusp : ss.suspended = false)
    (hchild : cs.getD i .null = .suspense (some fbs) kids)
    (hi : i < cs.length) :
    syncStep none ss = .cont { ss with
      es := { ss.es with
        stack := Frame.mk .suspenseT kids 0 "<!--/$-->"
            (some (Frame.mk .none fbs 0 "<!--/$-->" none)) ::
          Frame.mk ft cs (i + 1) foot fb :: rest,
        suspenseDepth := ss.es.suspenseDepth + 1 },
      out := outAppend (outEnsure ss.out (ss.es.suspenseDepth + 1))
        (ss.es.suspenseDepth + 1) "<!--$-->" } := by
  simp only [syncStep, budgetLeft, hstack, hsusp, Frame.childIndex,
    Frame.children, Frame.bumpIndex, hchild, render]
  rw [if_neg (by simp), if_neg (by simp; omega)]

/-- A pending (thrown-thenable) child under an open boundary: bump the
    cursor, append nothing, set the `suspended` flag. -/
theorem syncStep_pending (ss : SyncState) (ft : FType) (cs : List RNode)
    (i : Nat) (foot : String) (fb : Option Frame) (rest : List Frame)
    (inner : RNode)
    (hstack : ss.es.stack = Frame.mk ft cs i foot fb :: rest)
    (hsusp : ss.suspended = false)
    (hchild : cs.getD i .null = .pendingLazy inner)
    (hi : i < cs.length)
    (hd : ss.es.suspenseDepth < ss.out.length)
    (hdep : 0 < ss.es.suspenseDepth) :
    syncStep none ss = .cont { ss with
      es := { ss.es with stack := Frame.mk ft cs (i + 1) foot fb :: rest },
      out := outAppend ss.out ss.es.suspenseDepth "",
      suspended := true } := by
  simp only [syncStep, budgetLeft, hstack, hsusp, Frame.childIndex,
    Frame.children, Frame.bumpIndex, hchild, render,
    outEnsure_of_lt _ _ hd]
  rw [if_neg (by simp), if_neg (by simp; omega), if_pos hdep]

/-- Popping a suspended-into boundary frame: discard the boundary's
    buffer, push the pre-built fallback frame, emit the suspended sentinel
    into the parent depth, skip the boundary's own footer. -/
theorem syncStep_suspendedPop (ss : SyncState) (cs : List RNode) (i : Nat)
    (foot : String) (fbf : Frame) (rest : List Frame)
    (hstack : ss.es.stack =
      Frame.mk .suspenseT cs i foot (some fbf) :: rest)
    (hsusp : ss.suspended = true)
    (hfoot : foot ≠ "") :
    syncStep none ss = .cont { ss with
      es := { ss.es with
              stack := fbf :: rest,
              previousWasTextNode := false,
              suspenseDepth := ss.es.suspenseDepth - 1 },
      out := outAppend ss.out.dropLast (ss.es.suspenseDepth - 1)
        "<!--$!-->",
      suspended := false } := by
  simp only [syncStep, budgetLeft, hstack, hsusp, syncPopStep,
    Frame.ftype, Frame.footer, Frame.fallbackFrame, hfoot]
  rw [if_neg (by simp)]
  simp [hfoot]

/-- Popping a finished plain frame: flush its footer at the current depth
    and reset the text-node flag when the footer is non-empty. -/
theorem syncStep_popNone (ss : SyncState) (cs : List RNode) (i : Nat)
    (foot : String) (fb : Option Frame) (rest : List Frame)
    (hstack : ss.es.stack = Frame.mk .none cs i foot fb :: rest)
    (hsusp : ss.suspended = false)
    (hdone : i ≥ cs.length) :
    syncStep none ss = .cont { ss with
      es := { ss.es with
              stack := rest,
              previousWasTextNode :=
                if foot ≠ "" then false
                else ss.es.previousWasTextNode },
      out := outAppend ss.out ss.es.suspenseDepth foot } := by
  simp only [syncStep, budgetLeft, hstack, hsusp, syncPopStep,
    Frame.ftype, Frame.footer, Frame.childIndex, Frame.children]
  rw [if_neg (by simp), if_pos (by right; exact hdone)]

theorem getD_after_map (l : List String) (x : RNode) (r : List RNode) :
    (l.map RNode.text ++ x :: r).getD l.length .null = x := by
  rw [show l.length = (l.map RNode.text).length by simp, getD_append_len]
  rfl

/-- The terminal step: an empty frame stack exhausts the session and
    releases its thread id. -/
theorem syncStep_exhaust (ss : SyncState) (hstack : ss.es.stack = []) :
    syncStep none ss = .done { ss with
      es := { ss.es with exhausted := true },
      alloc := freeThreadID ss.es.threadID ss.alloc } := by
  simp only [syncStep, budgetLeft, hstack]
  rw [if_neg (by simp)]

/-! Loop-level forms of the step lemmas, for chaining whole reads. -/

theorem syncLoop_suspense {n : Nat} {ss : SyncState} (ft : FType)
    (cs : List RNode) (i : Nat) (foot : String) (fb : Option Frame)
    (rest : List Frame) (fbs kids : List RNode)
    (hstack : ss.es.stack = Frame.mk ft cs i foot fb :: rest)
    (hsusp : ss.suspended = false)
    (hchild : cs.getD i .null = .suspense (some fbs) kids)
    (hi : i < cs.length) :
    syncLoop (n + 1) none ss = syncLoop n none { ss with
      es := { ss.es with
        stack := Frame.mk .suspenseT kids 0 "<!--/$-->"
            (some (Frame.mk .none fbs 0 "<!--/$-->" none)) ::
          Frame.mk ft cs (i + 1) foot fb :: rest,
        suspenseDepth := ss.es.suspenseDepth + 1 },
      out := outAppend (outEnsure ss.out (ss.es.suspenseDepth + 1))
        (ss.es.suspenseDepth + 1) "<!--$-->" } :=
  syncLoop_cont (syncStep_suspense ss ft cs i foot fb rest fbs kids
    hstack hsusp hchild hi) n

theorem syncLoop_pending {n : Nat} {ss : SyncState} (ft : FType)
    (cs : List RNode) (i : Nat) (foot : String) (fb : Option Frame)
    (rest : List Frame) (inner : RNode)
    (hstack : ss.es.stack = Frame.mk ft cs i foot fb :: rest)
    (hsusp : ss.suspended = false)
    (hchild : cs.getD i .null = .pendingLazy inner)
    (hi : i < cs.length)
    (hd : ss.es.suspenseDepth < ss.out.length)
    (hdep : 0 < ss.es.suspenseDepth) :
    syncLoop (n + 1) none ss = syncLoop n none { ss with
      es := { ss.es with stack := Frame.mk ft cs (i + 1) foot fb :: rest },
      out := outAppend ss.out ss.es.suspenseDepth "",
      suspended := true } :=
  syncLoop_cont (syncStep_pending ss ft cs i foot fb rest inner
    hstack hsusp hchild hi hd hdep) n

theorem syncLoop_suspendedPop {n : Nat} {ss : SyncState} (cs : List RNode)
    (i : Nat) (foot : String) (fbf : Frame) (rest : List Frame)
    (hstack : ss.es.stack =
      Frame.mk .suspenseT cs i foot (some fbf) :: rest)
    (hsusp : ss.suspended = true)
    (hfoot : foot ≠ "") :
    syncLoop (n + 1) none ss = syncLoop n none { ss with
      es := { ss.es with
              stack := fbf :: rest,
              previousWasTextNode := false,
              suspenseDepth := ss.es.suspenseDepth - 1 },
      out := outAppend ss.out.dropLast (ss.es.suspenseDepth - 1)
        "<!--$!-->",
      suspended := false } :=
  syncLoop_cont (syncStep_suspendedPop ss cs i foot fbf rest
    hstack hsusp hfoot) n

theorem syncLoop_popNone {n : Nat} {ss : SyncState} (cs : List RNode)
    (i : Nat) (foot : String) (fb : Option Frame) (rest : List Frame)
    (hstack : ss.es.stack = Frame.mk .none cs i foot fb :: rest)
    (hsusp : ss.suspended = false)
    (hdone : i ≥ cs.length) :
    syncLoop (n + 1) none ss = syncLoop n none { ss with
      es := { ss.es with
              stack := rest,
              previousWasTextNode :=
                if foot ≠ "" then false
                else ss.es.previousWasTextNode },
      out := outAppend ss.out ss.es.suspenseDepth foot } :=
  syncLoop_cont (syncStep_popNone ss cs i foot fb rest
    hstack hsusp hdone) n

theorem syncLoop_exhaust {n : Nat} {ss : SyncState}
    (hstack : ss.es.stack = []) :
    syncLoop (n + 1) none ss = some (.ok { ss with
      es := { ss.es with exhausted := true },
      alloc := freeThreadID ss.es.threadID ss.alloc }) :=
  syncLoop_done (syncStep_exhaust ss hstack) n

/-! ### Pending-free trees and resolved out-queues, for the sync/async
    equivalence -/

/-- Trees that contain no pending (suspending) node anywhere. -/
inductive NoPending : RNode → Prop
  | text (s : String) : NoPending (.text s)
  | num (n : Int) : NoPending (.num n)
  | null : NoPending .null
  | elem (tag : String) (cs : List RNode) :
      (∀ c ∈ cs, NoPending c) → NoPending (.elem tag cs)
  | fragment (cs : List RNode) :
      (∀ c ∈ cs, NoPending c) → NoPending (.fragment cs)
  | suspenseNone (cs : List RNode) :
      (∀ c ∈ cs, NoPending c) → NoPending (.suspense none cs)
  | suspenseSome (fbs cs : List RNode) :
      (∀ c ∈ fbs, NoPending c) → (∀ c ∈ cs, NoPending c) →
      NoPending (.suspense (some fbs) cs)
  | provider (ctx : Nat) (v : Value) (cs : List RNode) :
      (∀ c ∈ cs, NoPending c) → NoPending (.provider ctx v cs)
  | consumer (ctx : Nat) (f : Value → List RNode) :
      (∀ v, ∀ c ∈ f v, NoPending c) → NoPending (.consumer ctx f)
  | lazyResolved (inner : RNode) :
      NoPending inner → NoPending (.lazyResolved inner)

/-- Frames whose children (and fallback frame) are pending-free. -/
inductive NoPendingF : Frame → Prop
  | mk (ft : FType) (cs : List RNode) (i : Nat) (foot : String)
      (fb : Option Frame) :
      (∀ c ∈ cs, NoPending c) → (∀ f, fb = some f → NoPendingF f) →
      NoPendingF (.mk ft cs i foot fb)

theorem NoPendingF.children_mem {fr : Frame} (h : NoPendingF fr) :
    ∀ c ∈ fr.children, NoPending c := by
  cases h with
  | mk ft cs i foot fb hc hf => exact hc

theorem NoPendingF.bump {fr : Frame} (h : NoPendingF fr) :
    NoPendingF fr.bumpIndex := by
  cases h with
  | mk ft cs i foot fb hc hf => exact .mk ft cs (i + 1) foot fb hc hf

/-- Out-queue entries holding no unresolved future. -/
inductive ResolvedQ : QItem → Prop
  | str (s : String) : ResolvedQ (.str s)
  | boundary (items : List QItem) (footer : String) :
      (∀ it ∈ items, ResolvedQ it) → ResolvedQ (.boundary items footer)

mutual
/-- The resolved value of an out-queue entry (on resolved entries). -/
def flatQ : QItem → String
  | .str s => s
  | .deferredNode _ _ _ => ""
  | .boundary items footer => flatQL items ++ footer

/-- The resolved value of a whole buffer, in insertion order. -/
def flatQL : List QItem → String
  | [] => ""
  | it :: rest => flatQ it ++ flatQL rest
end

mutual
/-- Fuel needed to force an entry. -/
def sizeQ : QItem → Nat
  | .str _ => 1
  | .deferredNode _ _ _ => 1
  | .boundary items _ => sizeQL items + 1

def sizeQL : List QItem → Nat
  | [] => 1
  | it :: rest => sizeQ it + sizeQL rest + 1
end

theorem flatQL_append (a b : List QItem) :
    flatQL (a ++ b) = flatQL a ++ flatQL b := by
  induction a with
  | nil => simp [flatQL]
  | cons it rest ih => simp [flatQL, ih, String.append_assoc]

theorem flatQL_pushItem (buf : List QItem) (it : QItem) :
    flatQL (pushItem buf it) = flatQL buf ++ flatQ it := by
  unfold pushItem
  match it with
  | .deferredNode a b c => simp [flatQL_append, flatQL]
  | .boundary a b => simp [flatQL_append, flatQL]
  | .str s =>
      match hlast : buf.getLast? with
      | none => simp [flatQL_append, flatQL, flatQ]
      | some (.deferredNode a b c) => simp [flatQL_append, flatQL, flatQ]
      | some (.boundary a b) => simp [flatQL_append, flatQL, flatQ]
      | some (.str t) =>
          have hb : buf.dropLast ++ [QItem.str t] = buf := by
            have hne : buf ≠ [] := by
              intro h; rw [h] at hlast; simp at hlast
            have h3 : some (buf.getLast hne) = some (QItem.str t) := by
              rw [← List.getLast?_eq_getLast buf hne]; exact hlast
            have h4 : buf.getLast hne = QItem.str t :=
              Option.some_injective _ h3
            rw [← h4]
            exact List.dropLast_append_getLast hne
          calc flatQL (buf.dropLast ++ [QItem.str (t ++ s)])
              = flatQL buf.dropLast ++ (t ++ s) := by
                simp [flatQL_append, flatQL, flatQ, String.append_empty]
            _ = (flatQL buf.dropLast ++ t) ++ s := by
                rw [String.append_assoc]
            _ = flatQL (buf.dropLast ++ [QItem.str t]) ++ s := by
                simp [flatQL_append, flatQL, flatQ, String.append_empty]
            _ = flatQL buf ++ flatQ (.str s) := by rw [hb]; rfl

theorem set_eq_of_le {α : Type} (l : List α) (i : Nat) (a : α)
    (h : l.length ≤ i) : l.set i a = l := by
  induction l generalizing i with
  | nil => rfl
  | cons x rest ih =>
      match i with
      | 0 => simp at h
      | i + 1 => simp only [List.set]; rw [ih i (by simpa using h)]

/-- `outAppend` composes unconditionally. -/
theorem outAppend_comp (out : List String) (i : Nat) (a b : String) :
    outAppend (outAppend out i a) i b = outAppend out i (a ++ b) := by
  by_cases h : i < out.length
  · exact outAppend_outAppend out i a b h
  · have h' : out.length ≤ i := by omega
    unfold outAppend
    rw [set_eq_of_le out i _ h', set_eq_of_le out i _ h',
      set_eq_of_le out i _ h']

theorem getD_set_self' {α : Type} (l : List α) (i : Nat) (x d : α)
    (h : i < l.length) : (l.set i x).getD i d = x := by
  rw [List.getD_eq_getElem?_getD, List.getElem?_set_self (by simpa using h)]
  rfl

theorem getD_set_ne' {α : Type} (l : List α) (i j : Nat) (x d : α)
    (h : i ≠ j) : (l.set i x).getD j d = l.getD j d := by
  rw [List.getD_eq_getElem?_getD, List.getElem?_set_ne h,
    ← List.getD_eq_getElem?_getD]

theorem getD_last {α : Type} (l : List α) (d : α) :
    (l.getLast?).getD d = l.getD (l.length - 1) d := by
  rw [List.getLast?_eq_getElem?, ← List.getD_eq_getElem?_getD]

theorem getD_dropLast {α : Type} (l : List α) (i : Nat) (d : α)
    (h : i < l.length - 1) : l.dropLast.getD i d = l.getD i d := by
  rw [List.getD_eq_getElem?_getD, List.getElem?_dropLast, if_pos h,
    ← List.getD_eq_getElem?_getD]

theorem getD_concat {α : Type} (l : List α) (x d : α) (i : Nat) :
    (l ++ [x]).getD i d =
      if i < l.length then l.getD i d
      else if i = l.length then x else d := by
  by_cases h : i < l.length
  · rw [if_pos h, List.getD_eq_getElem?_getD,
      List.getElem?_append_left h, ← List.getD_eq_getElem?_getD]
  · rw [if_neg h, List.getD_eq_getElem?_getD,
      List.getElem?_append_right (by omega)]
    by_cases h2 : i = l.length
    · rw [if_pos h2]
      simp [h2]
    · rw [if_neg h2]
      have : i - l.length ≥ 1 := by omega
      match hv : i - l.length, this with
      | k + 1, _ => simp

theorem pushToOutQueue_length (q : List (List QItem)) (d : Nat)
    (it : QItem) : (pushToOutQueue q d it).length = q.length := by
  simp [pushToOutQueue]

/-- Pushing an entry on the async side matches appending its resolved
    value on the sync side, buffer by buffer. -/
theorem flat_push (q : List (List QItem)) (out : List String) (d : Nat)
    (it : QItem)
    (hlen : q.length = out.length)
    (hflat : ∀ i, flatQL (q.getD i []) = out.getD i "") :
    ∀ i, flatQL ((pushToOutQueue q d it).getD i []) =
      (outAppend out d (flatQ it)).getD i "" := by
  intro i
  unfold pushToOutQueue outAppend
  by_cases hi : d = i
  · subst hi
    by_cases hd : d < q.length
    · rw [getD_set_self' _ _ _ _ hd, getD_set_self' _ _ _ _ (by omega),
        flatQL_pushItem, hflat]
    · rw [set_eq_of_le _ _ _ (by omega), set_eq_of_le _ _ _ (by omega),
        hflat]
  · rw [getD_set_ne' _ _ _ _ _ hi, getD_set_ne' _ _ _ _ _ hi, hflat]

/-- Every entry of every buffer stays resolved when a resolved entry is
    pushed. -/
theorem res_push (q : List (List QItem)) (d : Nat) (it : QItem)
    (hres : ∀ buf ∈ q, ∀ x ∈ buf, ResolvedQ x) (hit : ResolvedQ it) :
    ∀ buf ∈ pushToOutQueue q d it, ∀ x ∈ buf, ResolvedQ x := by
  intro buf hbuf x hx
  rcases List.mem_or_eq_of_mem_set hbuf with h | h
  · exact hres buf h x hx
  · subst h
    unfold pushItem at hx
    have hsub : ∀ y ∈ (q.getD d []).dropLast, ResolvedQ y := by
      intro y hy
      by_cases hd : d < q.length
      · rw [List.getD_eq_getElem _ _ hd] at hy
        exact hres _ (List.getElem_mem hd) y (List.dropLast_subset _ hy)
      · rw [List.getD_eq_default _ _ (by omega)] at hy
        simp at hy
    have hall : ∀ y ∈ q.getD d [], ResolvedQ y := by
      intro y hy
      by_cases hd : d < q.length
      · rw [List.getD_eq_getElem _ _ hd] at hy
        exact hres _ (List.getElem_mem hd) y hy
      · rw [List.getD_eq_default _ _ (by omega)] at hy
        simp at hy
    match it, hit with
    | .str s, _ =>
        revert hx
        match (q.getD d []).getLast? with
        | none => intro hx; rcases List.mem_append.mp hx with h | h
                  · exact hall x h
                  · simp at h; subst h; exact .str _
        | some (.str t) =>
            intro hx
            rcases List.mem_append.mp hx with h | h
            · exact hsub x h
            · simp at h; subst h; exact .str _
        | some (.deferredNode a b c) =>
            intro hx
            rcases List.mem_append.mp hx with h | h
            · exact hall x h
            · simp at h; subst h; exact .str _
        | some (.boundary a b) =>
            intro hx
            rcases List.mem_append.mp hx with h | h
            · exact hall x h
            · simp at h; subst h; exact .str _
    | .boundary items footer, hb =>
        rcases List.mem_append.mp hx with h | h
        · exact hall x h
        · simp at h; subst h; exact hb
    | .deferredNode a b c, hd => cases hd

theorem sizeQ_pos (it : QItem) : 1 ≤ sizeQ it := by
  cases it <;> simp [sizeQ]

theorem sizeQL_pos (l : List QItem) : 1 ≤ sizeQL l := by
  cases l <;> simp [sizeQL]

/-- Forcing a whole buffer of already-forceable entries concatenates
    their values in order. -/
theorem forceQ_resolved_list (items : List QItem)
    (hin : ∀ it ∈ items, ∀ fuel store alloc, sizeQ it ≤ fuel →
      forceQ fuel (.inl it) store alloc = some (flatQ it, store, alloc)) :
    ∀ fuel store alloc, sizeQL items ≤ fuel →
    forceQ fuel (.inr items) store alloc =
      some (flatQL items, store, alloc) := by
  induction items with
  | nil =>
      intro fuel store alloc hf
      obtain ⟨f, rfl⟩ : ∃ k, fuel = k + 1 :=
        ⟨fuel - 1, by simp [sizeQL] at hf; omega⟩
      rfl
  | cons it rest ih =>
      intro fuel store alloc hf
      have h1 : sizeQ it + sizeQL rest + 1 ≤ fuel := by
        simpa [sizeQL] using hf
      obtain ⟨f, rfl⟩ : ∃ k, fuel = k + 1 := ⟨fuel - 1, by omega⟩
      have hstep : forceQ (f + 1) (.inr (it :: rest)) store alloc =
          (match forceQ f (.inl it) store alloc with
           | none => none
           | some (s, st, al) =>
               match forceQ f (.inr rest) st al with
               | none => none
               | some (t, st, al) => some (s ++ t, st, al)) := rfl
      rw [hstep, hin it (by simp) f store alloc (by omega)]
      simp [ih (fun x h => hin x (by simp [h])) f store alloc (by omega),
        flatQL, String.append_assoc]

/-- Forcing a resolved entry yields its flattened value, leaving the
    shared storage and the allocator untouched. -/
theorem forceQ_resolved {it : QItem} (h : ResolvedQ it) :
    ∀ fuel store alloc, sizeQ it ≤ fuel →
    forceQ fuel (.inl it) store alloc = some (flatQ it, store, alloc) := by
  induction h with
  | str s =>
      intro fuel store alloc hf
      obtain ⟨f, rfl⟩ : ∃ k, fuel = k + 1 :=
        ⟨fuel - 1, by simp [sizeQ] at hf; omega⟩
      rfl
  | boundary items footer hmem ih =>
      intro fuel store alloc hf
      have h1 : sizeQL items + 1 ≤ fuel := by simpa [sizeQ] using hf
      obtain ⟨f, rfl⟩ : ∃ k, fuel = k + 1 := ⟨fuel - 1, by omega⟩
      have hstep : forceQ (f + 1) (.inl (.boundary items footer))
          store alloc =
          (match forceQ f (.inr items) store alloc with
           | none => none
           | some (s, st, al) => some (s ++ footer, st, al)) := rfl
      rw [hstep, forceQ_resolved_list items ih f store alloc (by omega)]
      rfl

/-- Flattening a fully resolved tail of the top-level buffer with an
    infinite budget concatenates everything. -/
theorem flattenGo_resolved (rest : List QItem)
    (hres : ∀ it ∈ rest, ResolvedQ it) :
    ∀ fuel acc store alloc, sizeQL rest ≤ fuel →
    flattenGo fuel none acc rest store alloc =
      some (acc ++ flatQL rest, [], store, alloc) := by
  induction rest with
  | nil =>
      intro fuel acc store alloc hf
      obtain ⟨f, rfl⟩ : ∃ k, fuel = k + 1 :=
        ⟨fuel - 1, by simp [sizeQL] at hf; omega⟩
      show some (acc, [], store, alloc) = _
      rw [show flatQL [] = "" from rfl, String.append_empty]
  | cons it rest ih =>
      intro fuel acc store alloc hf
      have h1 : sizeQ it + sizeQL rest + 1 ≤ fuel := by
        simpa [sizeQL] using hf
      obtain ⟨f, rfl⟩ : ∃ k, fuel = k + 1 := ⟨fuel - 1, by omega⟩
      match it, hres it (by simp) with
      | .str t, _ =>
          have hstep : flattenGo (f + 1) none acc (.str t :: rest)
              store alloc = flattenGo f none (acc ++ t) rest store alloc :=
            rfl
          rw [hstep,
            ih (fun x h => hres x (by simp [h])) f (acc ++ t) store alloc
              (by omega)]
          simp [flatQL, flatQ, String.append_assoc]
      | .boundary items footer, hb =>
          have hstep : flattenGo (f + 1) none acc
              (.boundary items footer :: rest) store alloc =
              (match forceQ f (.inl (.boundary items footer))
                  store alloc with
               | none => none
               | some (t, st, al) =>
                   flattenGo f none (acc ++ t) rest st al) := rfl
          rw [hstep, forceQ_resolved hb f store alloc
            (by simp [sizeQ] at h1 ⊢; omega)]
          show flattenGo f none (acc ++ flatQ (.boundary items footer))
              rest store alloc = _
          rw [ih (fun x h => hres x (by simp [h])) f _ store alloc
            (by omega)]
          simp [flatQL, String.append_assoc]

theorem syncLoop_mono {bytes : Option Nat} :
    ∀ {n : Nat} {ss : SyncState} {r : Outcome SyncState},
    syncLoop n bytes ss = some r → ∀ m, n ≤ m →
    syncLoop m bytes ss = some r := by
  intro n
  induction n with
  | zero => intro ss r h; simp [syncLoop] at h
  | succ n ih =>
      intro ss r h m hm
      obtain ⟨m', rfl⟩ : ∃ k, m = k + 1 := ⟨m - 1, by omega⟩
      unfold syncLoop at h ⊢
      rcases hs : syncStep bytes ss with s | s | e <;>
        simp only [hs] at h ⊢
      · exact ih h m' (by omega)
      · exact h
      · exact h

theorem asyncLoop_mono {bytes : Option Nat} :
    ∀ {n : Nat} {as : AsyncState} {r : Outcome AsyncState},
    asyncLoop n bytes as = some r → ∀ m, n ≤ m →
    asyncLoop m bytes as = some r := by
  intro n
  induction n with
  | zero => intro as r h; simp [asyncLoop] at h
  | succ n ih =>
      intro as r h m hm
      obtain ⟨m', rfl⟩ : ∃ k, m = k + 1 := ⟨m - 1, by omega⟩
      unfold asyncLoop at h ⊢
      rcases hs : asyncStep bytes as with s | s | e <;>
        simp only [hs] at h ⊢
      · exact ih h m' (by omega)
      · exact h
      · exact h

/-- Forcing a list of entries, each of which forces deterministically, is
    deterministic: whenever it succeeds it yields the flattened values with
    the storage and the allocator untouched. -/
theorem forceQ_det_list (items : List QItem)
    (hin : ∀ it ∈ items, ∀ fuel store alloc out,
      forceQ fuel (.inl it) store alloc = some out →
      out = (flatQ it, store, alloc)) :
    ∀ fuel store alloc out, forceQ fuel (.inr items) store alloc =
      some out → out = (flatQL items, store, alloc) := by
  induction items with
  | nil =>
      intro fuel store alloc out h
      match fuel with
      | 0 => exact absurd h (by simp [forceQ])
      | f + 1 =>
          have h' : some ("", store, alloc) = some out := h
          cases Option.some_injective _ h'
          rfl
  | cons it rest ih =>
      intro fuel store alloc out h
      match fuel with
      | 0 => exact absurd h (by simp [forceQ])
      | f + 1 =>
          have hstep : forceQ (f + 1) (.inr (it :: rest)) store alloc =
              (match forceQ f (.inl it) store alloc with
               | none => none
               | some (s, st, al) =>
                   match forceQ f (.inr rest) st al with
                   | none => none
                   | some (t, st, al) => some (s ++ t, st, al)) := rfl
          rw [hstep] at h
          rcases h1 : forceQ f (.inl it) store alloc with _ | ⟨s, st, al⟩
          · rw [h1] at h; exact absurd h (by simp)
          · rw [h1] at h
            have h3 := hin it (by simp) f store alloc _ h1
            injection h3 with e1 h3
            injection h3 with e2 e3
            subst e1; subst e2; subst e3
            have h' : (match forceQ f (.inr rest) st al with
                | none => none
                | some (t, st, al) =>
                    some (flatQ it ++ t, st, al)) = some out := h
            rcases h2 : forceQ f (.inr rest) st al with _ | ⟨t, st2, al2⟩
            · rw [h2] at h'; exact absurd h' (by simp)
            · rw [h2] at h'
              have h4 := ih (fun x hx => hin x (by simp [hx])) f st al _ h2
              injection h4 with e1 h4
              injection h4 with e2 e3
              subst e1; subst e2; subst e3
              cases Option.some_injective _ h'
              rfl

/-- Forcing a resolved entry is deterministic: whatever the fuel, success
    yields the flattened value with storage and allocator untouched. -/
theorem forceQ_det {it : QItem} (h : ResolvedQ it) :
    ∀ fuel store alloc out, forceQ fuel (.inl it) store alloc = some out →
      out = (flatQ it, store, alloc) := by
  induction h with
  | str s =>
      intro fuel store alloc out h
      match fuel with
      | 0 => exact absurd h (by simp [forceQ])
      | f + 1 =>
          have h' : some (s, store, alloc) = some out := h
          cases Option.some_injective _ h'
          rfl
  | boundary items footer hmem ih =>
      intro fuel store alloc out h
      match fuel with
      | 0 => exact absurd h (by simp [forceQ])
      | f + 1 =>
          have hstep : forceQ (f + 1) (.inl (.boundary items footer))
              store alloc =
              (match forceQ f (.inr items) store alloc with
               | none => none
               | some (s, st, al) => some (s ++ footer, st, al)) := rfl
          rw [hstep] at h
          rcases h1 : forceQ f (.inr items) store alloc with _ | ⟨s, st, al⟩
          · rw [h1] at h; exact absurd h (by simp)
          · rw [h1] at h
            have h3 := forceQ_det_list items ih f store alloc _ h1
            injection h3 with e1 h3
            injection h3 with e2 e3
            subst e1; subst e2; subst e3
            cases Option.some_injective _ h
            rfl

/-- Flattening a fully resolved tail with an infinite budget is
    deterministic: success at any fuel yields the full concatenation,
    consumes the whole tail and leaves storage and allocator untouched. -/
theorem flattenGo_det (rest : List QItem)
    (hres : ∀ it ∈ rest, ResolvedQ it) :
    ∀ fuel acc store alloc out,
      flattenGo fuel none acc rest store alloc = some out →
      out = (acc ++ flatQL rest, [], store, alloc) := by
  induction rest with
  | nil =>
      intro fuel acc store alloc out h
      match fuel with
      | 0 => exact absurd h (by simp [flattenGo])
      | f + 1 =>
          have h' : some (acc, [], store, alloc) = some out := h
          cases Option.some_injective _ h'
          rw [show flatQL [] = "" from rfl, String.append_empty]
  | cons it rest ih =>
      intro fuel acc store alloc out h
      match fuel with
      | 0 => exact absurd h (by simp [flattenGo])
      | f + 1 =>
          match it, hres it (by simp) with
          | .str t, _ =>
              have hstep : flattenGo (f + 1) none acc (.str t :: rest)
                  store alloc =
                  flattenGo f none (acc ++ t) rest store alloc := rfl
              rw [hstep] at h
              rw [ih (fun x hx => hres x (by simp [hx])) _ _ _ _ _ h]
              simp [flatQL, flatQ, String.append_assoc]
          | .boundary items footer, hb =>
              have hstep : flattenGo (f + 1) none acc
                  (.boundary items footer :: rest) store alloc =
                  (match forceQ f (.inl (.boundary items footer))
                      store alloc with
                   | none => none
                   | some (t, st, al) =>
                       flattenGo f none (acc ++ t) rest st al) := rfl
              rw [hstep] at h
              rcases h1 : forceQ f (.inl (.boundary items footer))
                  store alloc with _ | ⟨t, st, al⟩
              · rw [h1] at h; exact absurd h (by simp)
              · rw [h1] at h
                have h3 := forceQ_det hb f store alloc _ h1
                injection h3 with e1 h3
                injection h3 with e2 e3
                subst e1; subst e2; subst e3
                rw [ih (fun x hx => hres x (by simp [hx])) _ _ _ _ _ h]
                simp [flatQL, String.append_assoc]

/-- The buffer-growing guards of the two readers stay aligned. -/
theorem queueEnsure_length_eq (q : List (List QItem)) (out : List String)
    (d : Nat) (hlen : q.length = out.length) :
    (queueEnsure q d).length = (outEnsure out d).length := by
  unfold queueEnsure outEnsure
  rw [hlen]
  split_ifs <;> simp [hlen]

theorem flat_ensure (q : List (List QItem)) (out : List String) (d : Nat)
    (hlen : q.length = out.length)
    (hflat : ∀ i, flatQL (q.getD i []) = out.getD i "") :
    ∀ i, flatQL ((queueEnsure q d).getD i []) =
      (outEnsure out d).getD i "" := by
  intro i
  unfold queueEnsure outEnsure
  rw [hlen]
  split_ifs with hc
  · rw [getD_concat, getD_concat, hlen]
    split_ifs with h1 h2
    · exact hflat i
    · rfl
    · rfl
  · exact hflat i

theorem res_ensure (q : List (List QItem)) (d : Nat)
    (hres : ∀ buf ∈ q, ∀ x ∈ buf, ResolvedQ x) :
    ∀ buf ∈ queueEnsure q d, ∀ x ∈ buf, ResolvedQ x := by
  unfold queueEnsure
  split_ifs with hc
  · intro buf hbuf x hx
    rcases List.mem_append.mp hbuf with h | h
    · exact hres buf h x hx
    · simp at h
      subst h
      simp at hx
      subst hx
      exact .str _
  · exact hres

/-- The running states of the two readers in lockstep: identical engine
    state, storage and allocator, and per-depth buffers whose resolved
    values coincide (all async buffer entries being already resolved). -/
structure RelCore (ss : SyncState) (as : AsyncState) : Prop where
  hes : as.es = ss.es
  hst : as.store = ss.store
  hal : as.alloc = ss.alloc
  hlen : as.outQueue.length = ss.out.length
  hflat : ∀ i, flatQL (as.outQueue.getD i []) = ss.out.getD i ""
  hres : ∀ buf ∈ as.outQueue, ∀ x ∈ buf, ResolvedQ x

/-- The full loop invariant: lockstep alignment plus a live, unsuspended
    synchronous state over a pending-free frame stack. -/
structure Rel (ss : SyncState) (as : AsyncState) : Prop where
  core : RelCore ss as
  hsusp : ss.suspended = false
  hexh : ss.es.exhausted = false
  hnp : ∀ f ∈ ss.es.stack, NoPendingF f

/-- Frames pushed on a pending-free stack keep it pending-free. -/
theorem noPending_push {es : EngineState} (fr : Frame)
    (hfr : NoPendingF fr) (hstack : ∀ f ∈ es.stack, NoPendingF f) :
    ∀ f ∈ fr :: es.stack, NoPendingF f := by
  intro f hf
  rcases List.mem_cons.mp hf with h | h
  · exact h ▸ hfr
  · exact hstack f h

/-- On a pending-free child, `render` always returns markup (never a thrown
    thenable), keeps the stack pending-free and leaves the exhaustion flag
    alone. -/
theorem render_noPending {child : RNode} (h : NoPending child)
    (es : EngineState) (store : Store)
    (hstack : ∀ f ∈ es.stack, NoPendingF f) :
    ∃ s es' store', render child es store = (.markup s, es', store') ∧
      (∀ f ∈ es'.stack, NoPendingF f) ∧ es'.exhausted = es.exhausted := by
  cases h with
  | text s =>
      simp only [render]
      split_ifs <;> exact ⟨_, _, _, rfl, hstack, rfl⟩
  | num n =>
      simp only [render]
      split_ifs <;> exact ⟨_, _, _, rfl, hstack, rfl⟩
  | null => exact ⟨_, _, _, rfl, hstack, rfl⟩
  | elem tag cs hcs =>
      simp only [render, renderDOM]
      split_ifs <;>
        exact ⟨_, _, _, rfl,
          noPending_push _ (.mk _ cs 0 _ none hcs (fun f hf => nomatch hf))
            hstack, rfl⟩
  | fragment cs hcs =>
      exact ⟨_, _, _, rfl,
        noPending_push _ (.mk .none cs 0 "" none hcs (fun f hf => nomatch hf))
          hstack, rfl⟩
  | suspenseNone cs hcs =>
      exact ⟨_, _, _, rfl,
        noPending_push _ (.mk .none cs 0 "" none hcs (fun f hf => nomatch hf))
          hstack, rfl⟩
  | suspenseSome fbs cs hfbs hcs =>
      refine ⟨_, _, _, rfl,
        noPending_push _ (.mk .suspenseT cs 0 "<!--/$-->"
          (some (.mk .none fbs 0 "<!--/$-->" none)) hcs ?_) hstack, rfl⟩
      intro f hf
      cases hf
      exact .mk .none fbs 0 _ none hfbs (fun f hf => nomatch hf)
  | provider c v cs hcs =>
      exact ⟨_, _, _, rfl,
        noPending_push _ (.mk (.providerT c) cs 0 "" none hcs
          (fun f hf => nomatch hf)) hstack, rfl⟩
  | consumer c f hf =>
      exact ⟨_, _, _, rfl,
        noPending_push _ (.mk .none (f (store c es.threadID)) 0 "" none
          (hf _) (fun f hf => nomatch hf)) hstack, rfl⟩
  | lazyResolved inner hi =>
      refine ⟨_, _, _, rfl,
        noPending_push _ (.mk .none [inner] 0 "" none ?_
          (fun f hf => nomatch hf)) hstack, rfl⟩
      intro c hc
      rcases List.mem_singleton.mp hc with rfl
      exact hi

/-- Pushing an entry aligned with a string keeps buffer counts equal. -/
theorem push_len_eq (q : List (List QItem)) (out : List String)
    (hlen : q.length = out.length) (d : Nat) (it : QItem) (s : String) :
    (pushToOutQueue q d it).length = (outAppend out d s).length := by
  simp [pushToOutQueue_length, outAppend_length, hlen]

/-- Popping one finished frame keeps the two readers in lockstep: the
    synchronous pop succeeds (the suspended flag is down) and the resulting
    states are again aligned buffer by buffer. -/
theorem popRel (ft : FType) (cs : List RNode) (i : Nat) (foot : String)
    (fb : Option Frame) (rest : List Frame)
    (E : EngineState) (S : Store) (A : Alloc) (out : List String)
    (q : List (List QItem))
    (hlen : q.length = out.length)
    (hflat : ∀ j, flatQL (q.getD j []) = out.getD j "")
    (hres : ∀ buf ∈ q, ∀ x ∈ buf, ResolvedQ x) :
    ∃ ss', syncPopStep (.mk ft cs i foot fb) rest ⟨E, S, A, out, false⟩ =
        .ok ss' ∧
      RelCore ss' (asyncPopStep (.mk ft cs i foot fb) rest ⟨E, S, A, q⟩) ∧
      ss'.suspended = false ∧ ss'.es.exhausted = E.exhausted ∧
      ss'.es.stack = rest := by
  cases ft with
  | none =>
      refine ⟨_, rfl, ?_, rfl, rfl, rfl⟩
      refine ⟨rfl, rfl, rfl, ?_, ?_, ?_⟩
      · exact push_len_eq q out hlen _ _ foot
      · intro j
        exact flat_push q out _ (.str foot) hlen hflat j
      · exact res_push q _ (.str foot) hres (.str _)
  | domTag tag =>
      by_cases htag : tag = "select"
      · apply Exists.intro
        refine ⟨?_, ?_, ?_, ?_, ?_⟩
        · simp only [syncPopStep, Frame.ftype, Frame.footer]
          rw [if_pos htag]
        · simp only [asyncPopStep, Frame.ftype, Frame.footer]
          rw [if_pos htag]
          exact ⟨rfl, rfl, rfl, push_len_eq q out hlen _ _ foot,
            fun j => flat_push q out _ (.str foot) hlen hflat j,
            res_push q _ (.str foot) hres (.str _)⟩
        · rfl
        · rfl
        · rfl
      · apply Exists.intro
        refine ⟨?_, ?_, ?_, ?_, ?_⟩
        · simp only [syncPopStep, Frame.ftype, Frame.footer]
          rw [if_neg htag]
        · simp only [asyncPopStep, Frame.ftype, Frame.footer]
          rw [if_neg htag]
          exact ⟨rfl, rfl, rfl, push_len_eq q out hlen _ _ foot,
            fun j => flat_push q out _ (.str foot) hlen hflat j,
            res_push q _ (.str foot) hres (.str _)⟩
        · rfl
        · rfl
        · rfl
  | providerT c =>
      rcases hp : popProvider E.threadID E.ctxStack S with ⟨cs2, store2⟩
      apply Exists.intro
      refine ⟨?_, ?_, ?_, ?_, ?_⟩
      · simp only [syncPopStep, Frame.ftype, Frame.footer]
        rw [hp]
      · simp only [asyncPopStep, Frame.ftype, Frame.footer]
        rw [hp]
        exact ⟨rfl, rfl, rfl, push_len_eq q out hlen _ _ foot,
          fun j => flat_push q out _ (.str foot) hlen hflat j,
          res_push q _ (.str foot) hres (.str _)⟩
      · rfl
      · rfl
      · rfl
  | suspenseT =>
      have hbuf : flatQL ((q.getLast?).getD []) =
          (out.getLast?).getD "" := by
        rw [getD_last, getD_last, hlen]
        exact hflat _
      have hlen' : q.dropLast.length = out.dropLast.length := by
        simp [hlen]
      have hflat' : ∀ j, flatQL (q.dropLast.getD j []) =
          out.dropLast.getD j "" := by
        intro j
        by_cases hj : j < q.length - 1
        · rw [getD_dropLast _ _ _ hj,
            getD_dropLast _ _ _ (by omega : j < out.length - 1)]
          exact hflat j
        · rw [List.getD_eq_default _ _ (by simp; omega),
            List.getD_eq_default _ _ (by simp; omega)]
          rfl
      have hres' : ∀ buf ∈ q.dropLast, ∀ x ∈ buf, ResolvedQ x :=
        fun buf hb => hres buf (List.dropLast_subset _ hb)
      have hresItems : ∀ x ∈ (q.getLast?).getD [], ResolvedQ x := by
        intro x hx
        rw [getD_last] at hx
        by_cases hq : q.length - 1 < q.length
        · rw [List.getD_eq_getElem _ _ hq] at hx
          exact hres _ (List.getElem_mem _) x hx
        · rw [List.getD_eq_default _ _ (by omega)] at hx
          simp at hx
      refine ⟨_, rfl, ?_, rfl, rfl, rfl⟩
      refine ⟨rfl, rfl, rfl, ?_, ?_, ?_⟩
      · have e : (pushToOutQueue q.dropLast (E.suspenseDepth - 1)
            (.boundary ((q.getLast?).getD []) foot)).length =
            (outAppend (outAppend out.dropLast (E.suspenseDepth - 1)
              ((out.getLast?).getD "")) (E.suspenseDepth - 1)
                foot).length := by
          simp [pushToOutQueue_length, outAppend_length, hlen]
        exact e
      · intro j
        have e1 := flat_push q.dropLast out.dropLast (E.suspenseDepth - 1)
          (.boundary ((q.getLast?).getD []) foot) hlen' hflat' j
        have e2 : (outAppend out.dropLast (E.suspenseDepth - 1)
              (flatQ (.boundary ((q.getLast?).getD []) foot))).getD j "" =
            (outAppend (outAppend out.dropLast (E.suspenseDepth - 1)
              ((out.getLast?).getD "")) (E.suspenseDepth - 1) foot).getD
                j "" := by
          rw [outAppend_comp,
            show flatQ (.boundary ((q.getLast?).getD []) foot) =
              flatQL ((q.getLast?).getD []) ++ foot from rfl, hbuf]
        exact e1.trans e2
      · exact res_push q.dropLast _ (.boundary _ foot) hres'
          (.boundary _ _ hresItems)

/-- One `read` loop iteration on an exhausted stack. -/
theorem syncStep_nil (E : EngineState) (S : Store) (A : Alloc)
    (out : List String) (susp : Bool) (h : E.stack = []) :
    syncStep none ⟨E, S, A, out, susp⟩ =
      .done ⟨{ E with exhausted := true }, S, freeThreadID E.threadID A,
        out, susp⟩ := by
  unfold syncStep
  conv_lhs => rw [show (⟨E, S, A, out, susp⟩ : SyncState).es.stack = E.stack
    from rfl, h]
  rfl

/-- One `read` loop iteration with a frame on top, the suspended flag
    down. -/
theorem syncStep_cons (E : EngineState) (S : Store) (A : Alloc)
    (out : List String) (ft : FType) (cs : List RNode) (i : Nat)
    (foot : String) (fb : Option Frame) (rest : List Frame)
    (h : E.stack = .mk ft cs i foot fb :: rest) :
    syncStep none ⟨E, S, A, out, false⟩ =
      if cs.length ≤ i then
        match syncPopStep (.mk ft cs i foot fb) rest
            ⟨E, S, A, out, false⟩ with
        | .ok ss' => .cont ss'
        | .fail e => .fail e
      else
        match render (cs.getD i .null)
            { E with stack := .mk ft cs (i + 1) foot fb :: rest } S with
        | (.markup s, es', store') =>
            .cont ⟨es', store', A,
              outAppend (outEnsure out es'.suspenseDepth)
                es'.suspenseDepth s, false⟩
        | (.suspendedOn _, es', store') =>
            if es'.suspenseDepth > 0 then
              .cont ⟨es', store', A,
                outAppend (outEnsure out es'.suspenseDepth)
                  es'.suspenseDepth "", true⟩
            else .fail .noFallback := by
  unfold syncStep
  simp only [h]
  by_cases hc : cs.length ≤ i
  · have hc' : (Frame.mk ft cs i foot fb).childIndex ≥
        (Frame.mk ft cs i foot fb).children.length := hc
    rw [if_pos (Or.inr hc'), if_pos hc]
    rfl
  · have hc' : ¬((Frame.mk ft cs i foot fb).childIndex ≥
        (Frame.mk ft cs i foot fb).children.length) := hc
    rw [if_neg (show ¬(false = true ∨ (Frame.mk ft cs i foot fb).childIndex ≥
        (Frame.mk ft cs i foot fb).children.length)
      from fun hor => hor.elim (fun hf => nomatch hf) hc'), if_neg hc]
    rfl

/-- One `readAsync` loop iteration on an exhausted stack. -/
theorem asyncStep_nil (E : EngineState) (S : Store) (A : Alloc)
    (q : List (List QItem)) (hex : E.exhausted = false)
    (h : E.stack = []) :
    asyncStep none ⟨E, S, A, q⟩ =
      .done ⟨{ E with exhausted := true }, S, freeThreadID E.threadID A,
        q⟩ := by
  unfold asyncStep
  simp only [h]
  rw [if_neg (show ¬¬(¬(E.exhausted = true) ∧
      budgetLeft none (q00 q) = true)
    from fun hn => hn ⟨by simp [hex], rfl⟩)]

/-- One `readAsync` loop iteration with a frame on top. -/
theorem asyncStep_cons (E : EngineState) (S : Store) (A : Alloc)
    (q : List (List QItem)) (ft : FType) (cs : List RNode) (i : Nat)
    (foot : String) (fb : Option Frame) (rest : List Frame)
    (hex : E.exhausted = false)
    (h : E.stack = .mk ft cs i foot fb :: rest) :
    asyncStep none ⟨E, S, A, q⟩ =
      if cs.length ≤ i then
        .cont (asyncPopStep (.mk ft cs i foot fb) rest ⟨E, S, A, q⟩)
      else
        match render (cs.getD i .null)
            { E with stack := .mk ft cs (i + 1) foot fb :: rest } S with
        | (.markup s, es', store') =>
            .cont ⟨es', store', A,
              pushToOutQueue (queueEnsure q es'.suspenseDepth)
                es'.suspenseDepth (.str s)⟩
        | (.suspendedOn inner, es', store') =>
            if es'.suspenseDepth > 0 ∨ es'.isChildRenderer then
              .cont ⟨es', store', A,
                pushToOutQueue (queueEnsure q es'.suspenseDepth)
                  es'.suspenseDepth
                  (.deferredNode inner es'.makeStaticMarkup
                    (getClonedRenderContext es' store'))⟩
            else .fail .noFallback := by
  unfold asyncStep
  simp only [h]
  rw [if_neg (show ¬¬(¬(E.exhausted = true) ∧
      budgetLeft none (q00 q) = true)
    from fun hn => hn ⟨by simp [hex], rfl⟩)]
  by_cases hc : cs.length ≤ i
  · have hc' : (Frame.mk ft cs i foot fb).childIndex ≥
        (Frame.mk ft cs i foot fb).children.length := hc
    rw [if_pos hc', if_pos hc]
  · have hc' : ¬ (Frame.mk ft cs i foot fb).childIndex ≥
        (Frame.mk ft cs i foot fb).children.length := hc
    rw [if_neg hc', if_neg hc]
    rfl

/-- One loop iteration keeps the two readers in lockstep: on a pending-free
    stack both finish together (stack exhaustion) or both continue to
    states that are again aligned; neither side can fail. -/
theorem step_rel {ss : SyncState} {as : AsyncState} (h : Rel ss as) :
    (∃ ss' as', syncStep none ss = .done ss' ∧
      asyncStep none as = .done as' ∧ RelCore ss' as') ∨
    (∃ ss' as', syncStep none ss = .cont ss' ∧
      asyncStep none as = .cont as' ∧ Rel ss' as') := by
  obtain ⟨⟨hes, hst, hal, hlen, hflat, hres⟩, hsusp, hexh, hnp⟩ := h
  obtain ⟨E, S, A, out, susp⟩ := ss
  obtain ⟨E2, S2, A2, q⟩ := as
  replace hes : E = E2 := hes.symm
  subst hes
  replace hst : S = S2 := hst.symm
  subst hst
  replace hal : A = A2 := hal.symm
  subst hal
  replace hsusp : susp = false := hsusp
  subst hsusp
  replace hexh : E.exhausted = false := hexh
  replace hlen : q.length = out.length := hlen
  replace hflat : ∀ j, flatQL (q.getD j []) = out.getD j "" := hflat
  replace hres : ∀ buf ∈ q, ∀ x ∈ buf, ResolvedQ x := hres
  replace hnp : ∀ f ∈ E.stack, NoPendingF f := hnp
  rcases hstack : E.stack with _ | ⟨⟨ft, cs, i, foot, fb⟩, rest⟩
  · left
    apply Exists.intro
    apply Exists.intro
    exact ⟨syncStep_nil E S A out false hstack,
      asyncStep_nil E S A q hexh hstack,
      ⟨rfl, rfl, rfl, hlen, hflat, hres⟩⟩
  · by_cases hidx : cs.length ≤ i
    · right
      obtain ⟨ss', hok, hcore, hsusp', hexh', hstk'⟩ :=
        popRel ft cs i foot fb rest E S A out q hlen hflat hres
      refine ⟨ss', asyncPopStep (.mk ft cs i foot fb) rest ⟨E, S, A, q⟩,
        ?_, ?_, ?_⟩
      · rw [syncStep_cons E S A out ft cs i foot fb rest hstack,
          if_pos hidx, hok]
      · rw [asyncStep_cons E S A q ft cs i foot fb rest hexh hstack,
          if_pos hidx]
      · refine ⟨hcore, hsusp', ?_, ?_⟩
        · rw [hexh']
          exact hexh
        · rw [hstk']
          intro f hf
          exact hnp f (by rw [hstack]; exact List.mem_cons_of_mem _ hf)
    · right
      have hidx' : i < cs.length := by omega
      have hframe := hnp (Frame.mk ft cs i foot fb)
        (by rw [hstack]; exact List.mem_cons_self _ _)
      have hchild : NoPending (cs.getD i RNode.null) := by
        rw [List.getD_eq_getElem _ _ hidx']
        exact hframe.children_mem _ (List.getElem_mem _)
      have hstR : ∀ f ∈ (Frame.mk ft cs (i + 1) foot fb :: rest),
          NoPendingF f := by
        intro f hf
        rcases List.mem_cons.mp hf with hh | hh
        · subst hh
          exact hframe.bump
        · exact hnp f (by rw [hstack]; exact List.mem_cons_of_mem _ hh)
      obtain ⟨s, es', store', hrender, hstack', hexh'⟩ :=
        render_noPending hchild
          { E with stack := Frame.mk ft cs (i + 1) foot fb :: rest } S hstR
      refine ⟨⟨es', store', A,
          outAppend (outEnsure out es'.suspenseDepth) es'.suspenseDepth s,
          false⟩,
        ⟨es', store', A,
          pushToOutQueue (queueEnsure q es'.suspenseDepth)
            es'.suspenseDepth (.str s)⟩, ?_, ?_, ?_⟩
      · rw [syncStep_cons E S A out ft cs i foot fb rest hstack,
          if_neg hidx, hrender]
      · rw [asyncStep_cons E S A q ft cs i foot fb rest hexh hstack,
          if_neg hidx, hrender]
      · refine ⟨⟨rfl, rfl, rfl, ?_, ?_, ?_⟩, rfl, ?_, ?_⟩
        · exact push_len_eq (queueEnsure q es'.suspenseDepth)
            (outEnsure out es'.suspenseDepth)
            (queueEnsure_length_eq q out es'.suspenseDepth hlen) _ _ s
        · intro j
          exact flat_push (queueEnsure q es'.suspenseDepth)
            (outEnsure out es'.suspenseDepth) es'.suspenseDepth (.str s)
            (queueEnsure_length_eq q out es'.suspenseDepth hlen)
            (flat_ensure q out es'.suspenseDepth hlen hflat) j
        · exact res_push _ _ (.str s) (res_ensure q es'.suspenseDepth hres)
            (.str _)
        · show es'.exhausted = false
          rw [hexh']
          exact hexh
        · exact hstack'

/-- The loops of the two readers run in lockstep on a pending-free tree:
    with equal fuel either both run out or both succeed, with aligned
    final states. -/
theorem loop_rel : ∀ (n : Nat) (ss : SyncState) (as : AsyncState),
    Rel ss as →
    (syncLoop n none ss = none ∧ asyncLoop n none as = none) ∨
    (∃ ss' as', syncLoop n none ss = some (.ok ss') ∧
      asyncLoop n none as = some (.ok as') ∧ RelCore ss' as') := by
  intro n
  induction n with
  | zero =>
      intro ss as h
      exact .inl ⟨rfl, rfl⟩
  | succ n ih =>
      intro ss as h
      rcases step_rel h with ⟨ss', as', hS, hA, hcore⟩ |
        ⟨ss', as', hS, hA, hrel⟩
      · right
        refine ⟨ss', as', ?_, ?_, hcore⟩
        · unfold syncLoop
          rw [hS]
        · unfold asyncLoop
          rw [hA]
      · have e1 : syncLoop (n + 1) none ss = syncLoop n none ss' := by
          simp only [syncLoop]
          rw [hS]
        have e2 : asyncLoop (n + 1) none as = asyncLoop n none as' := by
          simp only [asyncLoop]
          rw [hA]
        rw [e1, e2]
        exact ih ss' as' hrel

/-- A single infinite pull on a live renderer whose loop ends with a fully
    resolved top-level buffer returns the whole flattened buffer. -/
theorem readAsyncFull_resolved (m : Nat) (as0 as' : AsyncState)
    (hexh0 : as0.es.exhausted = false)
    (hA : asyncLoop m none as0 = some (.ok as'))
    (hres : ∀ it ∈ as'.outQueue.getD 0 [], ResolvedQ it)
    (hfuel : sizeQL (as'.outQueue.getD 0 []) ≤ m) :
    readAsyncFull m none as0 =
      some (.ok (some (flatQL (as'.outQueue.getD 0 [])),
        { as' with outQueue := as'.outQueue.set 0 [.str ""] })) := by
  unfold readAsyncFull
  rw [if_neg (by simp [hexh0]), hA]
  rcases hq : as'.outQueue.getD 0 [] with _ | ⟨it, rest⟩
  · simp only [hq]
    rw [flattenGo_resolved [] (by simp) m "" as'.store as'.alloc
      (by rw [hq] at hfuel; exact hfuel)]
    rfl
  · have hrest : ∀ x ∈ rest, ResolvedQ x := by
      intro x hx
      exact hres x (by rw [hq]; exact List.mem_cons_of_mem _ hx)
    cases it with
    | str s =>
        simp only [hq]
        rw [flattenGo_resolved rest hrest m s as'.store as'.alloc
          (by rw [hq] at hfuel; simp [sizeQL] at hfuel; omega)]
        rfl
    | deferredNode n st ctx =>
        have := hres _ (by rw [hq]; exact List.mem_cons_self _ _)
        cases this
    | boundary b f =>
        have hcons : ∀ x ∈ QItem.boundary b f :: rest, ResolvedQ x := by
          intro x hx
          exact hres x (by rw [hq]; exact hx)
        simp only [hq]
        rw [flattenGo_resolved (QItem.boundary b f :: rest) hcons m ""
          as'.store as'.alloc (by rw [hq] at hfuel; exact hfuel)]
        rfl

/-- A single infinite pull on a live renderer whose loop ends with a fully
    resolved top-level buffer is deterministic: whenever it succeeds, its
    value is the whole flattened buffer. -/
theorem readAsyncFull_det (m : Nat) (as0 as' : AsyncState)
    (hexh0 : as0.es.exhausted = false)
    (hA : asyncLoop m none as0 = some (.ok as'))
    (hres : ∀ it ∈ as'.outQueue.getD 0 [], ResolvedQ it) :
    ∀ outv, readAsyncFull m none as0 = some outv →
      outv = .ok (some (flatQL (as'.outQueue.getD 0 [])),
        { as' with outQueue := as'.outQueue.set 0 [.str ""] }) := by
  intro outv h
  unfold readAsyncFull at h
  rw [if_neg (by simp [hexh0]), hA] at h
  have main : ∀ (s0 : String) (rest0 : List QItem),
      (∀ x ∈ rest0, ResolvedQ x) →
      (match flattenGo m none s0 rest0 as'.store as'.alloc with
       | none => none
       | some (t, remaining, store, alloc) =>
           some (Outcome.ok (some t,
             { as' with store := store, alloc := alloc,
                        outQueue :=
                          as'.outQueue.set 0 (.str "" :: remaining) })) ) =
        some outv →
      outv = .ok (some (s0 ++ flatQL rest0),
        { as' with outQueue := as'.outQueue.set 0 [.str ""] }) := by
    intro s0 rest0 hr0 hmatch
    rcases hf : flattenGo m none s0 rest0 as'.store as'.alloc with
      _ | ⟨t, rem, st, al⟩
    · rw [hf] at hmatch
      exact absurd hmatch (by simp)
    · rw [hf] at hmatch
      have h3 := flattenGo_det rest0 hr0 m s0 as'.store as'.alloc _ hf
      injection h3 with e1 h3
      injection h3 with e2 h3
      injection h3 with e3 e4
      subst e1
      subst e2
      subst e3
      subst e4
      cases Option.some_injective _ hmatch
      rfl
  rcases hq : as'.outQueue.getD 0 [] with _ | ⟨it, rest⟩
  · simp only [hq] at h
    have := main "" [] (by simp) h
    rw [this]
    rw [show ("" : String) ++ flatQL [] = flatQL [] from rfl]
  · have hrest : ∀ x ∈ rest, ResolvedQ x := by
      intro x hx
      exact hres x (by rw [hq]; exact List.mem_cons_of_mem _ hx)
    cases it with
    | str s =>
        simp only [hq] at h
        have := main s rest hrest h
        rw [this]
        rfl
    | deferredNode n st ctx =>
        have := hres _ (by rw [hq]; exact List.mem_cons_self _ _)
        cases this
    | boundary b f =>
        have hcons : ∀ x ∈ QItem.boundary b f :: rest, ResolvedQ x := by
          intro x hx
          exact hres x (by rw [hq]; exact hx)
        simp only [hq] at h
        have := main "" (QItem.boundary b f :: rest) hcons h
        rw [this]
        rw [show ("" : String) ++ flatQL (QItem.boundary b f :: rest) =
          flatQL (QItem.boundary b f :: rest) from rfl]

/-- The state of a fresh synchronous top-level session started on a fresh
    allocator (the reduct of `mkRenderer children static store allocInit`
    with the fresh `out = ['']` buffer of `read`). -/
def initSync (children : List RNode) (static : Bool) (store : Store) :
    SyncState :=
  ⟨⟨0, [.mk .none children 0 "" none], false, none, false, static, 0, [],
    false⟩, store, ⟨[], 1⟩, [""], false⟩

/-- The state of a fresh asynchronous top-level session started on a fresh
    allocator (the reduct of
    `mkAsyncRenderer children static none store allocInit`). -/
def initAsync (children : List RNode) (static : Bool) (store : Store) :
    AsyncState :=
  ⟨⟨0, [.mk .none children 0 "" none], false, none, false, static, 0, [],
    false⟩, store, ⟨[], 1⟩, [[.str ""]]⟩

/-- The fresh session states of the two readers are aligned. -/
theorem rel_init (children : List RNode) (static : Bool) (store : Store)
    (hnp : ∀ c ∈ children, NoPending c) :
    Rel (initSync children static store)
      (initAsync children static store) := by
  refine ⟨⟨rfl, rfl, rfl, rfl, ?_, ?_⟩, rfl, rfl, ?_⟩
  · intro j
    cases j <;> rfl
  · intro buf hbuf x hx
    rcases List.mem_singleton.mp hbuf with rfl
    rcases List.mem_singleton.mp hx with rfl
    exact .str _
  · intro f hf
    rcases List.mem_singleton.mp hf with rfl
    exact .mk _ children 0 _ none hnp (fun f hf => nomatch hf)

/-- C6: for every input tree with no pending node, the total output of one
    synchronous session (`read` until exhaustion, infinite budget) and of
    one asynchronous session (`readAsync` with infinite budget) coincide:
    with enough fuel both produce the same outcome, byte for byte, for the
    same tree and static-markup setting. -/
theorem claim_C6 (children : List RNode) (static : Bool) (store : Store)
    (hnp : ∀ c ∈ children, NoPending c) (r : Outcome String) :
    (∃ n, syncTotal n children static store = some r) ↔
    (∃ m, asyncTotal m children static store = some r) := by
  have hTotS : ∀ n, syncTotal n children static store =
      Option.map (Outcome.map fun r => r.1.getD "")
        (Option.map (Outcome.map fun s => (some (s.out.getD 0 ""), s))
          (syncLoop n none (initSync children static store))) :=
    fun n => rfl
  have hTotA : ∀ m, asyncTotal m children static store =
      Option.map (Outcome.map fun r => r.1.getD "")
        (readAsyncFull m none (initAsync children static store)) :=
    fun m => rfl
  constructor
  · rintro ⟨n, hn⟩
    rw [hTotS n] at hn
    rcases loop_rel n (initSync children static store)
        (initAsync children static store)
        (rel_init children static store hnp) with
      ⟨hL, _⟩ | ⟨ss', as', hS, hA, hcore⟩
    · rw [hL] at hn
      exact absurd hn (by simp)
    · rw [hS] at hn
      simp only [Option.map, Outcome.map] at hn
      have hr : r = .ok (ss'.out.getD 0 "") :=
        (Option.some_injective _ hn).symm
      have hresQ : ∀ it ∈ as'.outQueue.getD 0 [], ResolvedQ it := by
        intro it hit
        by_cases h0 : 0 < as'.outQueue.length
        · rw [List.getD_eq_getElem _ _ h0] at hit
          exact hcore.hres _ (List.getElem_mem _) it hit
        · rw [List.getD_eq_default _ _ (by omega)] at hit
          simp at hit
      refine ⟨n + sizeQL (as'.outQueue.getD 0 []), ?_⟩
      rw [hTotA _]
      rw [readAsyncFull_resolved _ (initAsync children static store) as'
        rfl (asyncLoop_mono hA _ (by omega)) hresQ (by omega)]
      simp only [Option.map, Outcome.map]
      rw [hr, hcore.hflat 0]
      rfl
  · rintro ⟨m, hm⟩
    rw [hTotA m] at hm
    rcases loop_rel m (initSync children static store)
        (initAsync children static store)
        (rel_init children static store hnp) with
      ⟨_, hL⟩ | ⟨ss', as', hS, hA, hcore⟩
    · have hnone : readAsyncFull m none
          (initAsync children static store) = none := by
        unfold readAsyncFull
        rw [if_neg (by simp [initAsync]), hL]
      rw [hnone] at hm
      exact absurd hm (by simp)
    · have hresQ : ∀ it ∈ as'.outQueue.getD 0 [], ResolvedQ it := by
        intro it hit
        by_cases h0 : 0 < as'.outQueue.length
        · rw [List.getD_eq_getElem _ _ h0] at hit
          exact hcore.hres _ (List.getElem_mem _) it hit
        · rw [List.getD_eq_default _ _ (by omega)] at hit
          simp at hit
      rcases hro : readAsyncFull m none
          (initAsync children static store) with _ | outv
      · rw [hro] at hm
        exact absurd hm (by simp)
      · rw [hro] at hm
        have hout := readAsyncFull_det m
          (initAsync children static store) as' rfl hA hresQ outv hro
        subst hout
        simp only [Option.map, Outcome.map] at hm
        have hr : r = .ok (flatQL (as'.outQueue.getD 0 [])) :=
          (Option.some_injective _ hm).symm
        refine ⟨m, ?_⟩
        rw [hTotS m, hS]
        simp only [Option.map, Outcome.map]
        rw [hr, hcore.hflat 0]
        rfl

/-- Witness for C6 at the concrete pending-free tree `['a']`: the
    hypothesis holds, the synchronous session outputs `"a"`, and the
    equivalence transports that output to the asynchronous session. -/
theorem claim_C6_witness :
    (∀ c ∈ [RNode.text "a"], NoPending c) ∧
    syncTotal 3 [RNode.text "a"] false (fun _ _ => 0) = some (.ok "a") ∧
    (∃ m, asyncTotal m [RNode.text "a"] false (fun _ _ => 0) =
      some (.ok "a")) :=
  ⟨fun c hc => by
      rcases List.mem_singleton.mp hc with rfl
      exact .text "a",
   rfl,
   (claim_C6 [RNode.text "a"] false (fun _ _ => 0)
      (fun c hc => by
        rcases List.mem_singleton.mp hc with rfl
        exact .text "a") (.ok "a")).mp ⟨3, rfl⟩⟩

/-- C3: for every sequence of provider enter/exit events a session can
    produce (exits never outnumber enters), draining the still-open scope
    entries from top to bottom — which is what both frame-stack exhaustion
    of the matching exits and a mid-traversal `destroy()`'s
    `clearProviders` perform — leaves every shared context slot of the
    session's thread id at its pre-session value; and a balanced sequence
    by itself already restores both the scope stack and every shared slot,
    each pushed entry being popped exactly once by its matching exit. -/
theorem claim_C3 (tid : Nat) (ops : List ScopeOp) (store : Store)
    (h : depthOk ops 0 = true) :
    clearProviders tid (applyScopeOps tid ops ([], store)).1
        (applyScopeOps tid ops ([], store)).2 = store ∧
    (Balanced ops → applyScopeOps tid ops ([], store) = ([], store)) := by
  refine ⟨?_, fun hb => applyScopeOps_balanced tid hb [] store⟩
  have := clearProviders_applyScopeOps tid ops [] store (by simpa using h)
  simpa [clearProviders] using this

theorem claim_C3_witness :
    depthOk [ScopeOp.enter 1 5, ScopeOp.enter 2 6, ScopeOp.exit,
      ScopeOp.exit] 0 = true ∧
    (clearProviders 0 (applyScopeOps 0 [ScopeOp.enter 1 5,
          ScopeOp.enter 2 6, ScopeOp.exit, ScopeOp.exit]
          ([], fun _ _ => 0)).1
        (applyScopeOps 0 [ScopeOp.enter 1 5, ScopeOp.enter 2 6,
          ScopeOp.exit, ScopeOp.exit] ([], fun _ _ => 0)).2 =
        (fun _ _ => 0) ∧
      (Balanced [ScopeOp.enter 1 5, ScopeOp.enter 2 6, ScopeOp.exit,
          ScopeOp.exit] →
        applyScopeOps 0 [ScopeOp.enter 1 5, ScopeOp.enter 2 6,
          ScopeOp.exit, ScopeOp.exit] ([], fun _ _ => 0) =
          ([], fun _ _ => 0))) :=
  ⟨by decide, claim_C3 0 _ _ (by decide)⟩

/-- C5: in the synchronous reader, a child whose resolution throws a
    thenable while no boundary is open (`suspenseDepth = 0`) makes the
    `read` step fail fatally with the unhandled-suspension invariant,
    aborting the session; with `suspenseDepth > 0` no such error is
    raised — the step continues with the `suspended` flag set (which then
    unwinds into the nearest boundary). -/
theorem claim_C5 (ss : SyncState) (frame : Frame) (rest : List Frame)
    (inner : RNode)
    (hstack : ss.es.stack = frame :: rest)
    (hsusp : ss.suspended = false)
    (hidx : frame.childIndex < frame.children.length)
    (hchild : frame.children.getD frame.childIndex .null =
      .pendingLazy inner) :
    (ss.es.suspenseDepth = 0 → syncStep none ss = .fail .noFallback) ∧
    (0 < ss.es.suspenseDepth →
      ∃ ss', syncStep none ss = .cont ss' ∧ ss'.suspended = true ∧
        ss'.es.stack = frame.bumpIndex :: rest) := by
  have hlt : ¬ (ss.suspended = true ∨
      frame.childIndex ≥ frame.children.length) := by
    rintro (h | h)
    · rw [hsusp] at h; exact Bool.false_ne_true h
    · omega
  have key : syncStep none ss =
      (if 0 < ss.es.suspenseDepth then
        StepRes.cont { ss with
          es := { ss.es with stack := frame.bumpIndex :: rest },
          out := outAppend (outEnsure ss.out ss.es.suspenseDepth)
            ss.es.suspenseDepth "",
          suspended := true }
      else .fail .noFallback) := by
    simp only [syncStep, budgetLeft, not_true, if_false, hstack, hchild,
      render, if_neg hlt]
  constructor
  · intro hdepth
    rw [key, if_neg (by omega)]
  · intro hdepth
    exact ⟨_, by rw [key, if_pos hdepth], rfl, rfl⟩

theorem claim_C5_witness :
    (⟨⟨0, [.mk .none [.pendingLazy .null] 0 "" none], false, none, false,
        false, 0, [], false⟩, fun _ _ => 0, allocInit, [""], false⟩ :
      SyncState).es.stack =
        Frame.mk .none [.pendingLazy .null] 0 "" none :: [] ∧
    ((⟨⟨0, [.mk .none [.pendingLazy .null] 0 "" none], false, none, false,
        false, 0, [], false⟩, fun _ _ => 0, allocInit, [""], false⟩ :
      SyncState).es.suspenseDepth = 0 →
      syncStep none ⟨⟨0, [.mk .none [.pendingLazy .null] 0 "" none], false,
        none, false, false, 0, [], false⟩, fun _ _ => 0, allocInit, [""],
        false⟩ = .fail .noFallback) := by
  refine ⟨rfl, ?_⟩
  exact (claim_C5 _ (Frame.mk .none [.pendingLazy .null] 0 "" none) []
    .null rfl rfl (by decide) rfl).1

/-- C9: the zero-width separator marker is emitted exactly before the
    second of two consecutively emitted non-empty text/number leaves:
    when the previous emission was a non-empty text node
    (`previousWasTextNode`), a text or number leaf is encoded with the
    separator prefixed; the first text leaf (flag still clear, as a fresh
    session starts it) is encoded bare and only then sets the flag; a host
    element emission and a non-empty closing-marker flush both clear the
    flag, so no separator follows a non-text emission; static markup never
    separates. -/
theorem claim_C9 (es : EngineState) (store : Store) (s : String) (n : Int)
    (tag : String) (cs : List RNode) (frame : Frame) (rest : List Frame)
    (ss : SyncState) (kids : List RNode) (static : Bool) (alloc : Alloc)
    (hs : s ≠ "") :
    (es.makeStaticMarkup = false → es.previousWasTextNode = true →
      render (.text s) es store =
        (.markup ("<!-- -->" ++ escapeTextForBrowser s), es, store) ∧
      render (.num n) es store =
        (.markup ("<!-- -->" ++ escapeTextForBrowser (toString n)), es,
          store)) ∧
    (es.makeStaticMarkup = false → es.previousWasTextNode = false →
      render (.text s) es store =
        (.markup (escapeTextForBrowser s),
          { es with previousWasTextNode := true }, store)) ∧
    (es.makeStaticMarkup = true →
      render (.text s) es store =
        (.markup (escapeTextForBrowser s), es, store)) ∧
    ((render (.elem tag cs) es store).2.1.previousWasTextNode = false) ∧
    (frame.footer ≠ "" → frame.ftype = .none →
      ∀ ss', syncPopStep frame rest ss = .ok ss' →
        ss'.es.previousWasTextNode = false) ∧
    ((mkRenderer kids static store alloc).1.previousWasTextNode = false) := by
  refine ⟨?_, ?_, ?_, ?_, ?_, rfl⟩
  · intro hstat hprev
    constructor
    · simp [render, hs, hstat, hprev]
    · simp [render, hstat, hprev]
  · intro hstat hprev
    simp [render, hs, hstat, hprev]
  · intro hstat
    simp [render, hs, hstat]
  · simp [render, renderDOM]
    split <;> rfl
  · intro hf hty ss' hstep
    simp only [syncPopStep, hty, hf, if_true] at hstep
    cases hstep
    simp [hf]

/-- A concrete engine state for exercising the text-separator rules: the
    previous emission was a non-empty text node, markup is not static. -/
def c9es : EngineState :=
  ⟨0, [], false, none, true, false, 0, [], false⟩

def c9store : Store := fun _ _ => 0

theorem claim_C9_witness :
    render (.text "b") c9es c9store =
      (.markup ("<!-- -->" ++ escapeTextForBrowser "b"), c9es, c9store) :=
  ((claim_C9 c9es c9store "b" 5 "div" []
    (Frame.mk .none [] 0 "x" none) [] ⟨c9es, c9store, allocInit, [""], false⟩
    [] false allocInit (by decide)).1 rfl rfl).1

/-- C10: a boundary node whose fallback is `undefined` renders as a plain
    fragment: the pushed frame has no type tag, no fallback frame and no
    footer, the boundary depth is untouched and no opening sentinel is
    emitted — so a pending descendant is only handled by a strictly
    higher boundary, and in the synchronous reader with no higher
    boundary it hits the fatal no-fallback invariant, while a strictly
    higher boundary's fallback does catch it. -/
theorem claim_C10 (es : EngineState) (store : Store) (cs : List RNode) :
    render (.suspense none cs) es store =
      (.markup "",
        { es with stack := Frame.mk .none cs 0 "" none :: es.stack },
        store) ∧
    syncTotal 10 [.suspense none [.pendingLazy .null]] false
      (fun _ _ => 0) = some (.fail .noFallback) ∧
    syncTotal 20 [.suspense (some [.text "FB"])
        [.suspense none [.pendingLazy .null]]] false (fun _ _ => 0) =
      some (.ok ("<!--$!-->" ++ "FB" ++ "<!--/$-->")) := by
  refine ⟨rfl, by rfl, by rfl⟩

/-- C4: in the synchronous reader, a pending resolution under a boundary
    pops the nearest boundary frame, discards all output buffered for it
    (including any encoding of preceding primary siblings and the opening
    marker), pushes the boundary's pre-built fallback frame in its place,
    and emits the suspended sentinel before the fallback's encoding: for
    every fallback text run, every primary text prefix, any pending node
    and any primary suffix, the session's total output is exactly the
    sentinel, the fallback's encoding and the closing marker — no partial
    primary output, and the primary subtree is never retried (the suffix
    is never rendered). -/
theorem claim_C4 (fbs pres : List String) (inner : RNode)
    (posts : List RNode) (static : Bool) (store : Store) :
    syncTotal (pres.length + (fbs.length + (0 + 1 + 1 + 1) + 1 + 1) + 1)
        [.suspense (some (fbs.map .text))
          (pres.map .text ++ .pendingLazy inner :: posts)] static store =
      some (.ok ("<!--$!-->" ++ (encodeTexts static false fbs).1 ++
        "<!--/$-->")) := by
  show ((syncLoop
      (pres.length + (fbs.length + (0 + 1 + 1 + 1) + 1 + 1) + 1) none
      ⟨⟨0, [Frame.mk .none [RNode.suspense (some (fbs.map RNode.text))
          (pres.map RNode.text ++ RNode.pendingLazy inner :: posts)]
          0 "" none],
        false, none, false, static, 0, [], false⟩,
        store, ⟨[], 1⟩, [""], false⟩).map
      (Outcome.map fun s => (some (s.out.getD 0 ""), s))).map
      (Outcome.map fun r => (r.1.getD "")) = _
  rw [syncLoop_suspense .none
    [RNode.suspense (some (fbs.map RNode.text))
      (pres.map RNode.text ++ RNode.pendingLazy inner :: posts)]
    0 "" none [] (fbs.map RNode.text)
    (pres.map RNode.text ++ RNode.pendingLazy inner :: posts)]
  rw [syncLoop_texts pres _ _ .suspenseT []
    (RNode.pendingLazy inner :: posts) "<!--/$-->"
    (some (Frame.mk .none (fbs.map RNode.text) 0 "<!--/$-->" none))
    [Frame.mk .none [RNode.suspense (some (fbs.map RNode.text))
      (pres.map RNode.text ++ RNode.pendingLazy inner :: posts)]
      1 "" none]]
  rw [syncLoop_pending .suspenseT
    ([] ++ pres.map RNode.text ++ RNode.pendingLazy inner :: posts)
    ([].length + pres.length) "<!--/$-->"
    (some (Frame.mk .none (fbs.map RNode.text) 0 "<!--/$-->" none))
    [Frame.mk .none [RNode.suspense (some (fbs.map RNode.text))
      (pres.map RNode.text ++ RNode.pendingLazy inner :: posts)]
      1 "" none] inner]
  rw [syncLoop_suspendedPop
    ([] ++ pres.map RNode.text ++ RNode.pendingLazy inner :: posts)
    ([].length + pres.length + 1) "<!--/$-->"
    (Frame.mk .none (fbs.map RNode.text) 0 "<!--/$-->" none)
    [Frame.mk .none [RNode.suspense (some (fbs.map RNode.text))
      (pres.map RNode.text ++ RNode.pendingLazy inner :: posts)]
      1 "" none]]
  rw [syncLoop_texts fbs _ _ .none [] [] "<!--/$-->" none
    [Frame.mk .none [RNode.suspense (some (fbs.map RNode.text))
      (pres.map RNode.text ++ RNode.pendingLazy inner :: posts)]
      1 "" none]]
  rw [syncLoop_popNone ([] ++ fbs.map RNode.text ++ [])
    ([].length + fbs.length) "<!--/$-->" none
    [Frame.mk .none [RNode.suspense (some (fbs.map RNode.text))
      (pres.map RNode.text ++ RNode.pendingLazy inner :: posts)]
      1 "" none]]
  rw [syncLoop_popNone
    [RNode.suspense (some (fbs.map RNode.text))
      (pres.map RNode.text ++ RNode.pendingLazy inner :: posts)]
    1 "" none []]
  rw [syncLoop_exhaust]
  · show some (Outcome.ok ((("<!--$!-->" ++
        (encodeTexts static false fbs).1) ++ "<!--/$-->") ++ "")) = _
    rw [String.append_empty, String.append_assoc]
  all_goals try rfl
  all_goals try decide
  all_goals try
    (simp only [List.nil_append, List.length_nil, Nat.zero_add]
     exact getD_after_map pres (RNode.pendingLazy inner) posts)
  all_goals try
    (simp only [List.length_nil, Nat.zero_add, List.nil_append,
       List.length_append, List.length_map, List.length_cons]
     omega)
  all_goals try (simp only [outAppend_length, List.length_dropLast]; decide)
  all_goals simp

/-- C2, counterexample: in a top-level asynchronous session, a pending
    node with no ancestor boundary does not let traversal proceed — the
    reader fails fatally with the no-fallback invariant (line 1894 passes
    `suspenseDepth > 0 || isChildRenderer` as `canSuspend`, and
    `renderEventually` enforces it), refuting the claim that no enclosing
    boundary is ever required. -/
theorem claim_C2_counterexample :
    asyncTotal 10 [.pendingLazy (.text "x")] false (fun _ _ => 0) =
      some (.fail .noFallback) := by
  rfl

/-- C2, amended: in the asynchronous reader, when a node's resolution
    reports pending while a boundary is open (`suspenseDepth > 0`) or the
    session is a resumed child session, the eventual value is captured as
    a future carrying the cloned render context, pushed into the current
    depth's fragment buffer, and the reader continues with the next
    sibling; in a top-level session with no open boundary the pending
    resolution is instead fatal. -/
theorem claim_C2 (as : AsyncState) (frame : Frame) (rest : List Frame)
    (inner : RNode)
    (hstack : as.es.stack = frame :: rest)
    (hex : as.es.exhausted = false)
    (hidx : frame.childIndex < frame.children.length)
    (hchild : frame.children.getD frame.childIndex .null =
      .pendingLazy inner) :
    (0 < as.es.suspenseDepth ∨ as.es.isChildRenderer = true →
      asyncStep none as = .cont { as with
        es := { as.es with stack := frame.bumpIndex :: rest },
        outQueue := pushToOutQueue
          (queueEnsure as.outQueue as.es.suspenseDepth)
          as.es.suspenseDepth
          (.deferredNode inner as.es.makeStaticMarkup
            (getClonedRenderContext
              { as.es with stack := frame.bumpIndex :: rest }
              as.store)) }) ∧
    (as.es.suspenseDepth = 0 → as.es.isChildRenderer = false →
      asyncStep none as = .fail .noFallback) := by
  have hlt : ¬ frame.childIndex ≥ frame.children.length := by omega
  have key : asyncStep none as =
      (if 0 < as.es.suspenseDepth ∨ as.es.isChildRenderer = true then
        AStepRes.cont { as with
          es := { as.es with stack := frame.bumpIndex :: rest },
          outQueue := pushToOutQueue
            (queueEnsure as.outQueue as.es.suspenseDepth)
            as.es.suspenseDepth
            (.deferredNode inner as.es.makeStaticMarkup
              (getClonedRenderContext
                { as.es with stack := frame.bumpIndex :: rest }
                as.store)) }
      else .fail .noFallback) := by
    simp only [asyncStep, budgetLeft, hex, hstack, hchild, render,
      if_neg hlt]
    simp
  constructor
  · intro h
    rw [key, if_pos h]
  · intro h1 h2
    rw [key, if_neg]
    rintro (h | h)
    · omega
    · rw [h2] at h; exact Bool.false_ne_true h

/-- Rendering one child never touches the exhaustion flag or the session's
    thread id. -/
theorem render_preserves (child : RNode) (es : EngineState) (store : Store) :
    (render child es store).2.1.exhausted = es.exhausted ∧
    (render child es store).2.1.threadID = es.threadID := by
  cases child <;> simp only [render, renderDOM, pushProvider] <;>
    (repeat' split) <;> simp_all

/-- The frame-pop branch of the synchronous reader never touches the
    allocator, the exhaustion flag or the thread id. -/
theorem syncPopStep_preserves (frame : Frame) (rest : List Frame)
    (ss ss' : SyncState) (h : syncPopStep frame rest ss = .ok ss') :
    ss'.alloc = ss.alloc ∧ ss'.es.exhausted = ss.es.exhausted ∧
    ss'.es.threadID = ss.es.threadID := by
  unfold syncPopStep at h
  rcases frame with ⟨ft, cs, i, f, fb⟩
  cases ft <;>
    simp only [Frame.ftype, Frame.footer, Frame.fallbackFrame] at h <;>
    (repeat' split at h) <;>
    first
      | (cases h; simp_all)
      | cases h

/-- Every step of the synchronous read loop either holds the allocator
    fixed, or is the terminal stack-exhaustion step, which releases the
    session's thread id exactly once and marks the session exhausted. -/
theorem syncStep_cases (bytes : Option Nat) (ss : SyncState) :
    syncStep bytes ss = .done ss ∨
    syncStep bytes ss = .done { ss with
      es := { ss.es with exhausted := true },
      alloc := freeThreadID ss.es.threadID ss.alloc } ∨
    (∃ ss', syncStep bytes ss = .cont ss' ∧ ss'.alloc = ss.alloc ∧
      ss'.es.exhausted = ss.es.exhausted ∧
      ss'.es.threadID = ss.es.threadID) ∨
    (∃ e, syncStep bytes ss = .fail e) := by
  unfold syncStep
  dsimp only
  split
  · exact Or.inl rfl
  · split
    · right; left; rfl
    · split
      · -- pop branch
        rcases hpop : syncPopStep _ _ ss with ss' | e
        · rcases syncPopStep_preserves _ _ _ _ hpop with ⟨h1, h2, h3⟩
          exact Or.inr (Or.inr (Or.inl ⟨ss', rfl, h1, h2, h3⟩))
        · exact Or.inr (Or.inr (Or.inr ⟨e, rfl⟩))
      · -- render branch
        rename_i frame rest _ _
        rcases hr : render (frame.children.getD frame.childIndex .null)
            { ss.es with stack := frame.bumpIndex :: rest } ss.store with
          ⟨ro, es', store'⟩
        have hp := render_preserves
          (frame.children.getD frame.childIndex .null)
          { ss.es with stack := frame.bumpIndex :: rest } ss.store
        rw [hr] at hp
        simp only at hp
        cases ro with
        | markup s =>
            exact Or.inr (Or.inr (Or.inl
              ⟨{ ss with
                 es := es', store := store',
                 out := outAppend (outEnsure ss.out es'.suspenseDepth)
                   es'.suspenseDepth s },
               rfl, rfl, hp.1, hp.2⟩))
        | suspendedOn inner =>
            by_cases hd : es'.suspenseDepth > 0
            · exact Or.inr (Or.inr (Or.inl
                ⟨{ ss with
                   es := es', store := store',
                   out := outAppend (outEnsure ss.out es'.suspenseDepth)
                     es'.suspenseDepth "",
                   suspended := true },
                 by simp only [if_pos hd], rfl, hp.1, hp.2⟩))
            · refine Or.inr (Or.inr (Or.inr ⟨.noFallback, ?_⟩))
              simp only [if_neg hd]

/-- Over a whole synchronous read of a live session, the allocator either
    stays untouched (budget met or error, session still live) or receives
    exactly one release of the session's id, at the moment the frame stack
    empties and the session becomes exhausted. -/
theorem syncLoop_free (fuel : Nat) (bytes : Option Nat) :
    ∀ ss ss', ss.es.exhausted = false →
    syncLoop fuel bytes ss = some (.ok ss') →
    ss'.es.threadID = ss.es.threadID ∧
    ((ss'.es.exhausted = false ∧ ss'.alloc = ss.alloc) ∨
     (ss'.es.exhausted = true ∧
       ss'.alloc = freeThreadID ss.es.threadID ss.alloc)) := by
  induction fuel with
  | zero => intro ss ss' _ h; simp [syncLoop] at h
  | succ fuel ih =>
      intro ss ss' hex h
      unfold syncLoop at h
      rcases syncStep_cases bytes ss with hc | hc | ⟨s, hc, h1, h2, h3⟩ |
        ⟨e, hc⟩ <;> rw [hc] at h
      · cases h with
        | refl => exact ⟨rfl, Or.inl ⟨hex, rfl⟩⟩
      · cases h with
        | refl => exact ⟨rfl, Or.inr ⟨rfl, rfl⟩⟩
      · have := ih s ss' (h2.trans hex) h
        rw [h1, h3] at this
        exact this
      · cases h

/-- C8: `destroy()` is idempotent and, together with the release a read
    performs when it exhausts the frame stack, releases the session id
    exactly once over the session's lifetime: a second `destroy()` leaves
    everything unchanged; `destroy()` after exhaustion (the read already
    released the id) is a no-op; `destroy()` on a live session drains the
    scopes and adds exactly one release of the id; and a read of a live
    session either leaves the allocator alone (still live) or releases the
    id exactly once while marking the session exhausted, after which
    `destroy()` no longer releases. -/
theorem claim_C8 (es : EngineState) (store : Store) (alloc : Alloc)
    (fuel : Nat) (bytes : Option Nat) (ss ss' : SyncState) :
    (destroySync (destroySync es store alloc).1
        (destroySync es store alloc).2.1
        (destroySync es store alloc).2.2 = destroySync es store alloc) ∧
    (es.exhausted = true → destroySync es store alloc = (es, store, alloc)) ∧
    (es.exhausted = false →
      (destroySync es store alloc).2.2.freePool.count es.threadID =
        alloc.freePool.count es.threadID + 1 ∧
      (destroySync es store alloc).2.1 =
        clearProviders es.threadID es.ctxStack store ∧
      (destroySync es store alloc).1.exhausted = true) ∧
    (ss.es.exhausted = false → syncLoop fuel bytes ss = some (.ok ss') →
      (ss'.es.exhausted = false ∧ ss'.alloc = ss.alloc) ∨
      (ss'.es.exhausted = true ∧
        ss'.alloc.freePool.count ss.es.threadID =
          ss.alloc.freePool.count ss.es.threadID + 1 ∧
        destroySync ss'.es ss'.store ss'.alloc =
          (ss'.es, ss'.store, ss'.alloc))) := by
  refine ⟨?_, ?_, ?_, ?_⟩
  · by_cases hex : es.exhausted = true
    · simp [destroySync, hex]
    · simp only [Bool.not_eq_true] at hex
      simp [destroySync, hex]
  · intro hex; simp [destroySync, hex]
  · intro hex
    simp [destroySync, hex, freeThreadID]
  · intro hex hloop
    rcases syncLoop_free fuel bytes ss ss' hex hloop with ⟨htid, hc | hc⟩
    · exact Or.inl hc
    · refine Or.inr ⟨hc.1, ?_, ?_⟩
      · rw [hc.2]; simp [freeThreadID]
      · simp [destroySync, hc.1]

theorem claim_C8_witness :
    (c9es.exhausted = false →
      (destroySync c9es c9store allocInit).2.2.freePool.count
          c9es.threadID =
        allocInit.freePool.count c9es.threadID + 1 ∧
      (destroySync c9es c9store allocInit).2.1 =
        clearProviders c9es.threadID c9es.ctxStack c9store ∧
      (destroySync c9es c9store allocInit).1.exhausted = true) ∧
    (destroySync (destroySync c9es c9store allocInit).1
        (destroySync c9es c9store allocInit).2.1
        (destroySync c9es c9store allocInit).2.2 =
      destroySync c9es c9store allocInit) := by
  have h := claim_C8 c9es c9store allocInit 1 none
    ⟨c9es, c9store, allocInit, [""], false⟩
    ⟨c9es, c9store, allocInit, [""], false⟩
  exact ⟨h.2.2.1, h.1⟩

/-- The resumed child renderer of the C1 scenario: spawned from a cloned
    render context whose thread id 0 belongs to the owning top-level
    session, with an allocator in which id 0 is (correctly) not free. -/
def c1Child : AsyncState :=
  mkAsyncRenderer [.lazyResolved (.text "X")] false
    (some ⟨0, none, false, [], []⟩) (fun _ _ => 0) ⟨[], 5⟩

/-- The allocator left behind by the child session's `readAsync` loop
    running the frame stack to exhaustion. -/
def c1Result : Option Alloc :=
  match asyncLoop 50 none c1Child with
  | some (.ok s) => some s.alloc
  | _ => none

/-- C1: violated by the code.  A resumed child session (sharing its
    parent's thread id 0, with id 0 correctly absent from the free pool
    because the parent still owns it) runs `readAsync` to frame-stack
    exhaustion — and the exhaustion branch (lines 1826-1829) calls
    `freeThreadID` with no `isChildRenderer` guard, so the child releases
    the parent's still-live id into the pool: the pool gains an occurrence
    of id 0 even though only the owning top-level session may release it,
    and over the whole lifetime the id therefore gets released more than
    once. -/
theorem claim_C1 :
    c1Child.es.isChildRenderer = true ∧
    c1Child.es.threadID = 0 ∧
    c1Child.alloc.freePool.count 0 = 0 ∧
    c1Result = some ⟨[0], 6⟩ :=
  ⟨rfl, rfl, rfl, rfl⟩

/-- Concatenation of string fragments in order. -/
def joinStrs : List String → String
  | [] => ""
  | s :: rest => s ++ joinStrs rest

/-- Forcing a buffer of already-resolved string fragments joins them
    strictly in insertion order. -/
theorem forceQ_strings (strs : List String) :
    ∀ fuel store alloc, strs.length < fuel →
    forceQ fuel (.inr (strs.map .str)) store alloc =
      some (joinStrs strs, store, alloc) := by
  induction strs with
  | nil =>
      intro fuel store alloc h
      match fuel, h with
      | fuel + 1, _ => simp [forceQ, joinStrs]
  | cons s rest ih =>
      intro fuel store alloc h
      obtain ⟨fuel', rfl⟩ : ∃ k, fuel = k + 1 + 1 :=
        ⟨fuel - 2, by simp [List.length_cons] at h; omega⟩
      have step : forceQ (fuel' + 1 + 1)
          (.inr (QItem.str s :: List.map QItem.str rest)) store alloc =
          (match forceQ (fuel' + 1) (.inl (.str s)) store alloc with
           | none => none
           | some (t, st, al) =>
               match forceQ (fuel' + 1)
                   (.inr (List.map QItem.str rest)) st al with
               | none => none
               | some (u, st, al) => some (t ++ u, st, al)) := rfl
      have h1 : forceQ (fuel' + 1) (.inl (QItem.str s)) store alloc =
          some (s, store, alloc) := rfl
      rw [List.map_cons, step, h1]
      simp [ih (fuel' + 1) store alloc
        (by simp [List.length_cons] at h; omega), joinStrs]

/-- C7: sibling output order is preserved under suspension in the
    asynchronous reader.  First, finalizing a boundary joins its buffered
    fragments strictly in insertion order with the closing marker
    appended last.  Second, in the concrete scenario of the claim —
    sibling A resolving immediately, B pending (its value produced by a
    resumed child session only after the boundary has closed), C
    resolving immediately — the fully resolved output is A-then-B-then-C
    with the markers around it, never any other order. -/
theorem claim_C7 (strs : List String) (footer : String) (fuel : Nat)
    (store : Store) (alloc : Alloc) (hfuel : strs.length + 1 < fuel) :
    forceQ fuel (.inl (.boundary (strs.map .str) footer)) store alloc =
      some (joinStrs strs ++ footer, store, alloc) ∧
    asyncTotal 100 [.suspense (some [.text "FB"])
        [.text "A", .pendingLazy (.text "B"), .text "C"]] false
        (fun _ _ => 0) =
      some (.ok ("<!--$-->" ++ "A" ++ "<!-- -->" ++ "B" ++ "<!-- -->" ++
        "C" ++ "<!--/$-->")) := by
  constructor
  · match fuel, hfuel with
    | fuel + 1, h =>
      simp [forceQ, forceQ_strings strs fuel store alloc (by omega)]
  · rfl

theorem claim_C7_witness :
    ["A", "B"].length + 1 < 5 ∧
    forceQ 5 (.inl (.boundary (["A", "B"].map .str) "<!--/$-->"))
        (fun _ _ => 0) allocInit =
      some (joinStrs ["A", "B"] ++ "<!--/$-->", fun _ _ => 0,
        allocInit) :=
  ⟨by decide,
   (claim_C7 ["A", "B"] "<!--/$-->" 5 (fun _ _ => 0) allocInit
     (by decide)).1⟩

theorem claim_C2_witness :
    (⟨⟨0, [.mk .none [.pendingLazy (.text "B"), .text "C"] 0 "" none],
        false, none, false, false, 0, [], true⟩, fun _ _ => 0, allocInit,
        [[.str ""]]⟩ : AsyncState).es.stack =
      Frame.mk .none [.pendingLazy (.text "B"), .text "C"] 0 "" none
        :: [] ∧
    (0 < (0 : Nat) ∨ true = true →
      asyncStep none ⟨⟨0, [.mk .none [.pendingLazy (.text "B"), .text "C"]
          0 "" none], false, none, false, false, 0, [], true⟩,
        fun _ _ => 0, allocInit, [[.str ""]]⟩ = .cont
        ⟨⟨0, [.mk .none [.pendingLazy (.text "B"), .text "C"] 1 "" none],
          false, none, false, false, 0, [], true⟩, fun _ _ => 0,
          allocInit,
          [[.str "", .deferredNode (.text "B") false
            ⟨0, none, false, [], []⟩]]⟩) := by
  constructor
  · rfl
  · intro h
    have := (claim_C2 ⟨⟨0, [.mk .none [.pendingLazy (.text "B"),
        .text "C"] 0 "" none], false, none, false, false, 0, [], true⟩,
        fun _ _ => 0, allocInit, [[.str ""]]⟩
      (Frame.mk .none [.pendingLazy (.text "B"), .text "C"] 0 "" none) []
      (.text "B") rfl rfl (by decide) rfl).1 (Or.inr rfl)
    exact this

end Lightyear
